import Mathlib

/-!
# CEnsureThread: a thread-affinity gate

A verification development for `include/ensurethread.hpp` and the scenarios of
`test/src/test.cpp`.

The class is embedded as a transition system.  Every C++ statement that touches
state shared between threads (the mutex `m_mxQueue`, the deque `m_dqExecutors`,
the shared state of a `std::packaged_task`) is one atomic step of the thread
that executes it; a thread is a stack of method activations, each at a program
point named after the statement it is about to execute.  Threads are
interleaved by an explicit schedule.
-/

namespace EnsureThread

/-- Identity of a thread, the model of `std::thread::id`. -/
abbrev ThreadId := Nat

/-- Identity of a thrown exception object. -/
abbrev Exn := Nat

/-- Outcome of running an operation with result type `R`: it returns a value or
raises an exception.  This is also the content of the shared state of a
`std::packaged_task<R()>` once it is ready. -/
inductive Outcome (α : Type) where
  | value (v : α)
  | raised (e : Exn)
  deriving DecidableEq, Repr

/-- Behaviour of a bound call `std::bind(method, obj, args...)` when it is invoked
on some thread: either it runs to an outcome, or it leaves through
`return (THREAD).wait(this, METHOD, args...)`, the only way a method of this
repository re-enters the gate (macro `ENSURE_THREAD`). -/
inductive Res (κ α : Type) where
  | done (r : Outcome α)
  | wait (c : κ)
  deriving DecidableEq, Repr

/-- The data members of `class CEnsureThread`.  An element of `m_dqExecutors` is
the closure `[&task]() { task(); }`: it holds nothing but a reference to the
local `task` of one `wait_internal` activation.  A thread has at most one such
activation (it is blocked in it), so the reference is the identity of the
thread whose frame holds the task. -/
structure CEnsureThread where
  m_id : ThreadId
  m_mxQueue : Option ThreadId
  m_dqExecutors : List ThreadId
  deriving DecidableEq, Repr

/-- Value handed back to the caller of a method: `bool` of `poll_one`, `void` of
`poll`, or the outcome (value or exception) of `wait` and of a bound call. -/
inductive Ret (α : Type) where
  | flag (b : Bool)
  | void
  | outcome (r : Outcome α)
  deriving DecidableEq, Repr

/-- Program points of `wait_internal` (lines 25 to 34); the local
`std::packaged_task<R()> task` (line 25) is part of the frame. -/
inductive WaitPc where
  | lock
  | emplace_back
  | unlock
  | get
  deriving DecidableEq, Repr

/-- Program points of `poll_one` (lines 88 to 104); `fn` is the local
`fnExecutor`. -/
inductive PollPc where
  | test
  | lock
  | front
  | pop_front (fn : ThreadId)
  | unlock (fn : ThreadId)
  | call (fn : ThreadId)
  | finish (fn : ThreadId)
  deriving DecidableEq, Repr

/-- One method activation on the call stack of a thread. -/
inductive Frame (κ α : Type) where
  | invoke (c : κ)
  | wait_internal (pc : WaitPc) (c : κ) (task : Option (Outcome α))
  | poll_one (pc : PollPc)
  | poll
  deriving DecidableEq, Repr

/-- A thread: its call stack (innermost activation first) and the value returned
by the activation that finished last. -/
structure Thread (κ α : Type) where
  stack : List (Frame κ α)
  ret : Option (Ret α)
  deriving DecidableEq, Repr

/-- History of the gate, kept for the statements only: no step reads it. -/
inductive Obs (α : Type) where
  | started (executor : ThreadId) (fn : ThreadId)
  | completed (executor : ThreadId) (fn : ThreadId) (r : Outcome α)
  | polled (executor : ThreadId) (b : Bool)
  deriving DecidableEq, Repr

/-- The whole system: one gate, the threads that use it, and the history. -/
structure Sys (κ α : Type) where
  gate : CEnsureThread
  threads : ThreadId → Thread κ α
  trace : List (Obs α)

/-- The bodies of the bound calls: what `c()` does when run on thread `self`
against the gate. -/
abbrev Bodies (κ α : Type) := κ → CEnsureThread → ThreadId → Res κ α

/-- A call made by client code on an idle thread. -/
inductive Call (κ : Type) where
  | wait (c : κ)
  | poll_one
  | poll
  | invoke (c : κ)
  deriving DecidableEq, Repr

/-- One entry of a schedule: thread `t` makes a call, or runs one step. -/
inductive Action (κ : Type) where
  | call (t : ThreadId) (k : Call κ)
  | step (t : ThreadId)
  deriving DecidableEq, Repr

variable {κ α : Type}

/-- The constructor `CEnsureThread()`: `m_id(std::this_thread::get_id())`. -/
def CEnsureThread.new (self : ThreadId) : CEnsureThread :=
  { m_id := self, m_mxQueue := none, m_dqExecutors := [] }

/-- Method `get_id`: `return m_id;`. -/
def CEnsureThread.get_id (g : CEnsureThread) : ThreadId :=
  g.m_id

/-- Method `check_thread`: `return get_id() == std::this_thread::get_id();`. -/
def CEnsureThread.check_thread (g : CEnsureThread) (self : ThreadId) : Bool :=
  g.get_id == self

/-- Replace the state of thread `t`. -/
def Sys.setThread (s : Sys κ α) (t : ThreadId) (th : Thread κ α) : Sys κ α :=
  { s with threads := Function.update s.threads t th }

/-- Thread `t` continues with the given stack. -/
def Sys.goto (s : Sys κ α) (t : ThreadId) (stack : List (Frame κ α)) : Sys κ α :=
  s.setThread t { stack := stack, ret := none }

/-- The innermost activation of thread `t` returns `v` to the rest of its stack. -/
def Sys.leave (s : Sys κ α) (t : ThreadId) (rest : List (Frame κ α)) (v : Ret α) : Sys κ α :=
  s.setThread t { stack := rest, ret := some v }

/-- Replace the gate. -/
def Sys.setGate (s : Sys κ α) (g : CEnsureThread) : Sys κ α :=
  { s with gate := g }

/-- Append to the history. -/
def Sys.log (s : Sys κ α) (es : List (Obs α)) : Sys κ α :=
  { s with trace := s.trace ++ es }

/-- The task object an executor refers to: the bound call and the shared state
of the `task` local of the `wait_internal` activation of thread `o`, if thread
`o` is inside `wait_internal`. -/
def Sys.task (s : Sys κ α) (o : ThreadId) : Option (κ × Option (Outcome α)) :=
  match (s.threads o).stack with
  | .wait_internal _ c slot :: _ => some (c, slot)
  | _ => none

/-- The end of `task()`, seen from the frame that holds the task: its shared
state becomes ready with outcome `r`.  A shared state is written once. -/
def Thread.set_value (th : Thread κ α) (r : Outcome α) : Thread κ α :=
  match th.stack with
  | .wait_internal pc c none :: rest =>
      { stack := .wait_internal pc c (some r) :: rest, ret := th.ret }
  | _ => th

/-- Make the shared state of the task of thread `o` ready with outcome `r`. -/
def Sys.set_value (s : Sys κ α) (o : ThreadId) (r : Outcome α) : Sys κ α :=
  s.setThread o ((s.threads o).set_value r)

/-- Method `wait`: `return wait_internal<R>(std::bind(method, obj, args...));`.
The activation of `wait_internal` starts with `task` constructed around the
bound call (line 25), its shared state not ready. -/
def CEnsureThread.wait (c : κ) : Frame κ α :=
  .wait_internal .lock c none

/-- Method `wait_internal`, one statement per step, run by thread `self`. -/
def CEnsureThread.wait_internal (s : Sys κ α) (self : ThreadId) (rest : List (Frame κ α))
    (c : κ) (task : Option (Outcome α)) : WaitPc → Option (Sys κ α)
  | .lock =>
      -- std::lock_guard<std::mutex> lock(m_mxQueue);
      match s.gate.m_mxQueue with
      | none =>
          some ((s.setGate { s.gate with m_mxQueue := some self }).goto self
            (.wait_internal .emplace_back c task :: rest))
      | some _ => none
  | .emplace_back =>
      -- m_dqExecutors.emplace_back([&task]() { task(); });
      some ((s.setGate { s.gate with m_dqExecutors := s.gate.m_dqExecutors ++ [self] }).goto self
        (.wait_internal .unlock c task :: rest))
  | .unlock =>
      -- end of the scope of the lock_guard
      if s.gate.m_mxQueue = some self then
        some ((s.setGate { s.gate with m_mxQueue := none }).goto self
          (.wait_internal .get c task :: rest))
      else none
  | .get =>
      -- return task.get_future().get();
      match task with
      | some r => some (s.leave self rest (.outcome r))
      | none => none

/-- Method `poll_one`, one statement per step, run by thread `self`. -/
def CEnsureThread.poll_one (P : Bodies κ α) (s : Sys κ α) (self : ThreadId)
    (rest : List (Frame κ α)) (ret : Option (Ret α)) : PollPc → Option (Sys κ α)
  | .test =>
      -- bool bPoll = false; if (!m_dqExecutors.empty()) { bPoll = true; ... } return bPoll;
      if s.gate.m_dqExecutors.isEmpty then
        some ((s.log [.polled self false]).leave self rest (.flag false))
      else some (s.goto self (.poll_one .lock :: rest))
  | .lock =>
      -- m_mxQueue.lock();
      match s.gate.m_mxQueue with
      | none =>
          some ((s.setGate { s.gate with m_mxQueue := some self }).goto self
            (.poll_one .front :: rest))
      | some _ => none
  | .front =>
      -- auto fnExecutor = std::move(m_dqExecutors.front());
      match s.gate.m_dqExecutors with
      | fn :: _ => some (s.goto self (.poll_one (.pop_front fn) :: rest))
      | [] => none
  | .pop_front fn =>
      -- m_dqExecutors.pop_front();
      match s.gate.m_dqExecutors with
      | _ :: q =>
          some ((s.setGate { s.gate with m_dqExecutors := q }).goto self
            (.poll_one (.unlock fn) :: rest))
      | [] => none
  | .unlock fn =>
      -- m_mxQueue.unlock();
      if s.gate.m_mxQueue = some self then
        some ((s.setGate { s.gate with m_mxQueue := none }).goto self
          (.poll_one (.call fn) :: rest))
      else none
  | .call fn =>
      -- fnExecutor();  that is  task();  on the task the executor refers to
      match s.task fn with
      | none => none
      | some (_, some _) =>
          -- the task was run before: std::future_error, kept by fnExecutor
          some (((s.log [.started self fn, .polled self true]).leave self rest (.flag true)))
      | some (c, none) =>
          match P c s.gate self with
          | .done r =>
              some ((((s.log [.started self fn, .completed self fn r, .polled self true]).set_value
                fn r)).leave self rest (.flag true))
          | .wait c2 =>
              some ((s.log [.started self fn]).goto self
                (CEnsureThread.wait c2 :: .poll_one (.finish fn) :: rest))
  | .finish fn =>
      -- the bound call came back from its nested wait: task() stores the outcome
      match ret with
      | some (.outcome r) =>
          some ((((s.log [.completed self fn r, .polled self true]).set_value fn r)).leave self
            rest (.flag true))
      | _ => none

/-- Method `poll`: `while (poll_one());`. -/
def CEnsureThread.poll (s : Sys κ α) (self : ThreadId) (rest : List (Frame κ α)) :
    Option (Ret α) → Option (Sys κ α)
  | none => some (s.goto self (.poll_one .test :: .poll :: rest))
  | some (.flag true) => some (s.goto self (.poll_one .test :: .poll :: rest))
  | some (.flag false) => some (s.leave self rest .void)
  | some _ => none

/-- A bound call made directly on thread `self`. -/
def invoke (P : Bodies κ α) (s : Sys κ α) (self : ThreadId) (rest : List (Frame κ α)) (c : κ) :
    Option (Sys κ α) :=
  match P c s.gate self with
  | .done r => some (s.leave self rest (.outcome r))
  | .wait c2 => some (s.goto self (CEnsureThread.wait c2 :: rest))

/-- One step of thread `t`; `none` when the thread cannot move: it is idle, it is
blocked on the mutex or on a future that is not ready, or its next statement has
no defined behaviour. -/
def step (P : Bodies κ α) (s : Sys κ α) (t : ThreadId) : Option (Sys κ α) :=
  match (s.threads t).stack with
  | [] => none
  | .invoke c :: rest => invoke P s t rest c
  | .wait_internal pc c task :: rest => CEnsureThread.wait_internal s t rest c task pc
  | .poll_one pc :: rest => CEnsureThread.poll_one P s t rest (s.threads t).ret pc
  | .poll :: rest => CEnsureThread.poll s t rest (s.threads t).ret

/-- The steps of `step`, one rule per statement and outcome; the rule names are
the names used in the proofs of the invariants. -/
inductive Step (P : Bodies κ α) (s : Sys κ α) (t : ThreadId) : Sys κ α → Prop
  | invoke_done (c : κ) (rest : List (Frame κ α)) (r : Outcome α)
      (hst : (s.threads t).stack = .invoke c :: rest) (hb : P c s.gate t = .done r) :
      Step P s t (s.leave t rest (.outcome r))
  | invoke_wait (c : κ) (rest : List (Frame κ α)) (c2 : κ)
      (hst : (s.threads t).stack = .invoke c :: rest) (hb : P c s.gate t = .wait c2) :
      Step P s t (s.goto t (.wait_internal .lock c2 none :: rest))
  | wait_lock (c : κ) (task : Option (Outcome α)) (rest : List (Frame κ α))
      (hst : (s.threads t).stack = .wait_internal .lock c task :: rest)
      (hm : s.gate.m_mxQueue = none) :
      Step P s t ((s.setGate { s.gate with m_mxQueue := some t }).goto t
        (.wait_internal .emplace_back c task :: rest))
  | wait_emplace_back (c : κ) (task : Option (Outcome α)) (rest : List (Frame κ α))
      (hst : (s.threads t).stack = .wait_internal .emplace_back c task :: rest) :
      Step P s t ((s.setGate { s.gate with m_dqExecutors := s.gate.m_dqExecutors ++ [t] }).goto t
        (.wait_internal .unlock c task :: rest))
  | wait_unlock (c : κ) (task : Option (Outcome α)) (rest : List (Frame κ α))
      (hst : (s.threads t).stack = .wait_internal .unlock c task :: rest)
      (hm : s.gate.m_mxQueue = some t) :
      Step P s t ((s.setGate { s.gate with m_mxQueue := none }).goto t
        (.wait_internal .get c task :: rest))
  | wait_get (c : κ) (r : Outcome α) (rest : List (Frame κ α))
      (hst : (s.threads t).stack = .wait_internal .get c (some r) :: rest) :
      Step P s t (s.leave t rest (.outcome r))
  | poll_one_empty (rest : List (Frame κ α))
      (hst : (s.threads t).stack = .poll_one .test :: rest)
      (hq : s.gate.m_dqExecutors = []) :
      Step P s t ((s.log [.polled t false]).leave t rest (.flag false))
  | poll_one_test (rest : List (Frame κ α))
      (hst : (s.threads t).stack = .poll_one .test :: rest)
      (hq : s.gate.m_dqExecutors ≠ []) :
      Step P s t (s.goto t (.poll_one .lock :: rest))
  | poll_one_lock (rest : List (Frame κ α))
      (hst : (s.threads t).stack = .poll_one .lock :: rest)
      (hm : s.gate.m_mxQueue = none) :
      Step P s t ((s.setGate { s.gate with m_mxQueue := some t }).goto t
        (.poll_one .front :: rest))
  | poll_one_front (rest : List (Frame κ α)) (fn : ThreadId) (q : List ThreadId)
      (hst : (s.threads t).stack = .poll_one .front :: rest)
      (hq : s.gate.m_dqExecutors = fn :: q) :
      Step P s t (s.goto t (.poll_one (.pop_front fn) :: rest))
  | poll_one_pop_front (rest : List (Frame κ α)) (fn fn2 : ThreadId) (q : List ThreadId)
      (hst : (s.threads t).stack = .poll_one (.pop_front fn) :: rest)
      (hq : s.gate.m_dqExecutors = fn2 :: q) :
      Step P s t ((s.setGate { s.gate with m_dqExecutors := q }).goto t
        (.poll_one (.unlock fn) :: rest))
  | poll_one_unlock (rest : List (Frame κ α)) (fn : ThreadId)
      (hst : (s.threads t).stack = .poll_one (.unlock fn) :: rest)
      (hm : s.gate.m_mxQueue = some t) :
      Step P s t ((s.setGate { s.gate with m_mxQueue := none }).goto t
        (.poll_one (.call fn) :: rest))
  | poll_one_call_again (rest : List (Frame κ α)) (fn : ThreadId) (c : κ) (r0 : Outcome α)
      (hst : (s.threads t).stack = .poll_one (.call fn) :: rest)
      (htask : s.task fn = some (c, some r0)) :
      Step P s t ((s.log [.started t fn, .polled t true]).leave t rest (.flag true))
  | poll_one_call_done (rest : List (Frame κ α)) (fn : ThreadId) (c : κ) (r : Outcome α)
      (hst : (s.threads t).stack = .poll_one (.call fn) :: rest)
      (htask : s.task fn = some (c, none)) (hb : P c s.gate t = .done r) :
      Step P s t ((((s.log [.started t fn, .completed t fn r, .polled t true]).set_value
        fn r)).leave t rest (.flag true))
  | poll_one_call_wait (rest : List (Frame κ α)) (fn : ThreadId) (c c2 : κ)
      (hst : (s.threads t).stack = .poll_one (.call fn) :: rest)
      (htask : s.task fn = some (c, none)) (hb : P c s.gate t = .wait c2) :
      Step P s t ((s.log [.started t fn]).goto t
        (.wait_internal .lock c2 none :: .poll_one (.finish fn) :: rest))
  | poll_one_finish (rest : List (Frame κ α)) (fn : ThreadId) (r : Outcome α)
      (hst : (s.threads t).stack = .poll_one (.finish fn) :: rest)
      (hret : (s.threads t).ret = some (.outcome r)) :
      Step P s t ((((s.log [.completed t fn r, .polled t true]).set_value fn r)).leave t rest
        (.flag true))
  | poll_enter (rest : List (Frame κ α))
      (hst : (s.threads t).stack = .poll :: rest)
      (hret : (s.threads t).ret = none ∨ (s.threads t).ret = some (.flag true)) :
      Step P s t (s.goto t (.poll_one .test :: .poll :: rest))
  | poll_exit (rest : List (Frame κ α))
      (hst : (s.threads t).stack = .poll :: rest)
      (hret : (s.threads t).ret = some (.flag false)) :
      Step P s t (s.leave t rest .void)

/-- Program points inside a critical section of `m_mxQueue`: between a lock of
the mutex and the unlock that follows it. -/
def critical : List (Frame κ α) → Bool
  | .wait_internal .emplace_back _ _ :: _ => true
  | .wait_internal .unlock _ _ :: _ => true
  | .poll_one .front :: _ => true
  | .poll_one (.pop_front _) :: _ => true
  | .poll_one (.unlock _) :: _ => true
  | _ => false

/-- The thread has published its task (it is past `emplace_back`) and the shared
state of the task is not ready. -/
def pending : List (Frame κ α) → Bool
  | .wait_internal .unlock _ none :: _ => true
  | .wait_internal .get _ none :: _ => true
  | _ => false

/-- The thread is blocked in `get()` on a shared state that is not ready. -/
def waiting : List (Frame κ α) → Bool
  | .wait_internal .get _ none :: _ => true
  | _ => false

/-- The shared state of a task is ready only once its owner is at `get()`. -/
def slotOk : List (Frame κ α) → Bool
  | .wait_internal .lock _ (some _) :: _ => false
  | .wait_internal .emplace_back _ (some _) :: _ => false
  | .wait_internal .unlock _ (some _) :: _ => false
  | _ => true

/-- The executor a `poll_one` activation has read with `front()` and not yet
removed with `pop_front()`. -/
def fronted : List (Frame κ α) → Option ThreadId
  | .poll_one (.pop_front fn) :: _ => some fn
  | _ => none

/-- The executor an activation of `poll_one` has removed from the queue and is
about to execute or is executing. -/
def Frame.holding : Frame κ α → Option ThreadId
  | .poll_one (.unlock fn) => some fn
  | .poll_one (.call fn) => some fn
  | .poll_one (.finish fn) => some fn
  | _ => none

/-- The executor held by some activation on the stack. -/
def holding (stack : List (Frame κ α)) : Option ThreadId :=
  stack.findSome? Frame.holding

/-- What can be below an activation of `poll_one`: nothing, or the loop of `poll`. -/
def loopTail : List (Frame κ α) → Bool
  | [] => true
  | [.poll] => true
  | _ => false

/-- The call stacks that client calls on an idle thread give rise to. -/
def shaped : List (Frame κ α) → Bool
  | [] => true
  | [.invoke _] => true
  | [.wait_internal _ _ _] => true
  | .wait_internal _ _ _ :: .poll_one (.finish _) :: l => loopTail l
  | .poll_one _ :: l => loopTail l
  | [.poll] => true
  | _ => false

/-- The invariant of the system: the mutex is held exactly by the thread inside
a critical section, the queue holds each published task once, and an executor
taken out of the queue is held by one thread, is not in the queue, and its
owner is blocked on its future. -/
structure Inv (s : Sys κ α) : Prop where
  shape : ∀ u, shaped (s.threads u).stack = true
  slot : ∀ u, slotOk (s.threads u).stack = true
  lock : ∀ u, s.gate.m_mxQueue = some u ↔ critical (s.threads u).stack = true
  nodup : s.gate.m_dqExecutors.Nodup
  queued : ∀ o, o ∈ s.gate.m_dqExecutors → pending (s.threads o).stack = true
  held : ∀ u fn, holding (s.threads u).stack = some fn →
    fn ∉ s.gate.m_dqExecutors ∧ waiting (s.threads fn).stack = true
  held_unique : ∀ u v fn, holding (s.threads u).stack = some fn →
    holding (s.threads v).stack = some fn → u = v
  front : ∀ u fn, fronted (s.threads u).stack = some fn →
    s.gate.m_dqExecutors.head? = some fn

/-- The executors whose execution the history records as started, in order. -/
def executed (tr : List (Obs α)) : List ThreadId :=
  tr.filterMap (fun e => match e with
    | .started _ fn => some fn
    | _ => none)

/-- The values returned by the calls of `poll_one` the history records, in order. -/
def polls (tr : List (Obs α)) : List Bool :=
  tr.filterMap (fun e => match e with
    | .polled _ b => some b
    | _ => none)

/-- The next statement of the thread reads or writes `m_dqExecutors`. -/
def touchesQueue : List (Frame κ α) → Bool
  | .wait_internal .emplace_back _ _ :: _ => true
  | .poll_one .test :: _ => true
  | .poll_one .front :: _ => true
  | .poll_one (.pop_front _) :: _ => true
  | _ => false

/-- The activation a client call starts with. -/
def Call.frame : Call κ → Frame κ α
  | .wait c => CEnsureThread.wait c
  | .poll_one => .poll_one .test
  | .poll => .poll
  | .invoke c => .invoke c

/-- Client code on thread `t` makes call `k`; only an idle thread can. -/
def Sys.call (s : Sys κ α) (t : ThreadId) (k : Call κ) : Option (Sys κ α) :=
  match (s.threads t).stack with
  | [] => some (s.goto t [k.frame])
  | _ :: _ => none

/-- Fire one entry of a schedule; an entry that is not enabled changes nothing. -/
def fire (P : Bodies κ α) (s : Sys κ α) : Action κ → Sys κ α
  | .call t k => (s.call t k).getD s
  | .step t => (step P s t).getD s

/-- Run a schedule. -/
def run (P : Bodies κ α) (s : Sys κ α) (sched : List (Action κ)) : Sys κ α :=
  sched.foldl (fire P) s

/-- Thread `t` alone takes up to `n` steps, stopping when it cannot move. -/
def runThread (P : Bodies κ α) (t : ThreadId) : Nat → Sys κ α → Sys κ α
  | 0, s => s
  | n + 1, s =>
      match step P s t with
      | some s2 => runThread P t n s2
      | none => s

/-- The system right after `CEnsureThread et;` on thread `home`: every thread idle. -/
def init (home : ThreadId) : Sys κ α :=
  { gate := CEnsureThread.new home, threads := fun _ => { stack := [], ret := none }, trace := [] }

/-- The macro `ENSURE_THREAD(THREAD, METHOD, ...)`, the first statement of a
method run on thread `self`:
`{if (!(THREAD).check_thread()) return (THREAD).wait(this, METHOD, __VA_ARGS__);}`;
`METHOD` is the bound call of the method on `this` with the arguments, and
`rest` is the remainder of the method body. -/
def ENSURE_THREAD (THREAD : CEnsureThread) (self : ThreadId) (METHOD : κ) (rest : Res κ α) :
    Res κ α :=
  if !THREAD.check_thread self then .wait METHOD else rest

/-- The `struct STest` of both tests: `const std::thread::id m_id =
std::this_thread::get_id();`, the thread that constructed the object. -/
structure STest where
  m_id : ThreadId
  deriving DecidableEq, Repr

/-- Method `STest::IsSame`: `return m_id == std::this_thread::get_id();`. -/
def STest.IsSame (obj : STest) (self : ThreadId) : Bool :=
  obj.m_id == self

/-- Bodies of `TEST(wait, direct)`: the only bound call is
`std::bind(&STest::IsSame, &threadChecker)`. -/
def directBodies : Bodies STest Bool :=
  fun obj _ self => .done (.value (obj.IsSame self))

/-- The value of a C++ `int` expression whose mathematical value is `x`, on a
machine with 32-bit two-complement `int`: `x` itself when it is in range, the
wrapped value otherwise (where C++ leaves the result undefined). -/
def toInt (x : Int) : Int :=
  (x + 2147483648) % 4294967296 - 2147483648

/-- A bound call `std::bind(&STest::Work, this, et, a, b)`; `et` points to the
one gate of the system. -/
structure WorkCall where
  obj : STest
  a : Int
  b : Int
  deriving DecidableEq, Repr

/-- Method `STest::Work` of `TEST(wait, macro)`:
`ENSURE_THREAD(*et, &STest::Work, et, a, b); EXPECT_TRUE(IsSame()); return a + b;`.
The expectation is a check of the test and has no part in the result. -/
def STest.Work (obj : STest) (et : CEnsureThread) (a b : Int) (self : ThreadId) :
    Res WorkCall Int :=
  ENSURE_THREAD et self { obj := obj, a := a, b := b } (.done (.value (toInt (a + b))))

/-- Bodies of `TEST(wait, macro)`. -/
def macroBodies : Bodies WorkCall Int :=
  fun c et self => c.obj.Work et c.a c.b self

/-- The state of `TEST(wait, direct)`, main thread 0 and other thread 1, when the
other thread has called `et.wait(&threadChecker, &STest::IsSame)` and is blocked
in `get()`. -/
def directWaiting : Sys STest Bool :=
  run directBodies (init 0) [.call 1 (.wait { m_id := 0 }), .step 1, .step 1, .step 1]

/-- A state of the gate of `TEST(wait, direct)` with two other threads, 1 and 2,
both blocked in `et.wait(&threadChecker, &STest::IsSame)`; thread 2 reached
`emplace_back` first, so the queue is `[2, 1]`. -/
def directTwoWaiting : Sys STest Bool :=
  run directBodies (init 0)
    [.call 1 (.wait { m_id := 0 }), .call 2 (.wait { m_id := 0 }), .step 2, .step 2, .step 2,
      .step 1, .step 1, .step 1]

/-- A state of the gate of `TEST(wait, direct)` in which thread 1, inside
`wait_internal`, has locked the mutex and is about to run `emplace_back`, while
the main thread 0 has called `poll_one` and is about to run its test
`m_dqExecutors.empty()`. -/
def racingTest : Sys STest Bool :=
  run directBodies (init 0) [.call 1 (.wait { m_id := 0 }), .step 1, .call 0 .poll_one]

/-- A state of the gate of `TEST(wait, direct)` with one queued task and two
threads, 0 and 2, in `poll_one`: both ran the test on the queue of one task,
thread 0 then removed and took the task, and thread 2 has locked the mutex and
is about to run `m_dqExecutors.front()`. -/
def racingPollers : Sys STest Bool :=
  run directBodies directWaiting
    [.call 0 .poll_one, .call 2 .poll_one, .step 0, .step 2, .step 0, .step 0, .step 0,
      .step 0, .step 2]

/-! ## Projections and normal forms of states -/

@[simp] theorem setThread_gate (s : Sys κ α) (t : ThreadId) (th : Thread κ α) :
    (s.setThread t th).gate = s.gate := rfl

@[simp] theorem setThread_trace (s : Sys κ α) (t : ThreadId) (th : Thread κ α) :
    (s.setThread t th).trace = s.trace := rfl

theorem setThread_threads (s : Sys κ α) (t u : ThreadId) (th : Thread κ α) :
    (s.setThread t th).threads u = if u = t then th else s.threads u := by
  simp [Sys.setThread, Function.update_apply]

@[simp] theorem setGate_gate (s : Sys κ α) (g : CEnsureThread) : (s.setGate g).gate = g := rfl

@[simp] theorem setGate_threads (s : Sys κ α) (g : CEnsureThread) :
    (s.setGate g).threads = s.threads := rfl

@[simp] theorem setGate_trace (s : Sys κ α) (g : CEnsureThread) :
    (s.setGate g).trace = s.trace := rfl

@[simp] theorem log_gate (s : Sys κ α) (es : List (Obs α)) : (s.log es).gate = s.gate := rfl

@[simp] theorem log_threads (s : Sys κ α) (es : List (Obs α)) :
    (s.log es).threads = s.threads := rfl

@[simp] theorem log_trace (s : Sys κ α) (es : List (Obs α)) :
    (s.log es).trace = s.trace ++ es := rfl

@[simp] theorem goto_gate (s : Sys κ α) (t : ThreadId) (st : List (Frame κ α)) :
    (s.goto t st).gate = s.gate := rfl

@[simp] theorem goto_trace (s : Sys κ α) (t : ThreadId) (st : List (Frame κ α)) :
    (s.goto t st).trace = s.trace := rfl

theorem goto_threads (s : Sys κ α) (t u : ThreadId) (st : List (Frame κ α)) :
    (s.goto t st).threads u = if u = t then { stack := st, ret := none } else s.threads u :=
  setThread_threads s t u _

@[simp] theorem leave_gate (s : Sys κ α) (t : ThreadId) (st : List (Frame κ α)) (v : Ret α) :
    (s.leave t st v).gate = s.gate := rfl

@[simp] theorem leave_trace (s : Sys κ α) (t : ThreadId) (st : List (Frame κ α)) (v : Ret α) :
    (s.leave t st v).trace = s.trace := rfl

theorem leave_threads (s : Sys κ α) (t u : ThreadId) (st : List (Frame κ α)) (v : Ret α) :
    (s.leave t st v).threads u = if u = t then { stack := st, ret := some v } else s.threads u :=
  setThread_threads s t u _

@[simp] theorem set_value_gate (s : Sys κ α) (o : ThreadId) (r : Outcome α) :
    (s.set_value o r).gate = s.gate := rfl

@[simp] theorem set_value_trace (s : Sys κ α) (o : ThreadId) (r : Outcome α) :
    (s.set_value o r).trace = s.trace := rfl

theorem set_value_threads (s : Sys κ α) (o u : ThreadId) (r : Outcome α) :
    (s.set_value o r).threads u = if u = o then (s.threads o).set_value r else s.threads u :=
  setThread_threads s o u _

@[simp] theorem setGate_setGate (s : Sys κ α) (g g2 : CEnsureThread) :
    (s.setGate g).setGate g2 = s.setGate g2 := rfl

@[simp] theorem setGate_self (s : Sys κ α) : s.setGate s.gate = s := rfl

@[simp] theorem log_setGate (s : Sys κ α) (g : CEnsureThread) (l : List (Obs α)) :
    (s.log l).setGate g = (s.setGate g).log l := rfl

@[simp] theorem log_log (s : Sys κ α) (l l2 : List (Obs α)) :
    (s.log l).log l2 = s.log (l ++ l2) := by
  simp [Sys.log]

@[simp] theorem setThread_setGate (s : Sys κ α) (t : ThreadId) (th : Thread κ α)
    (g : CEnsureThread) : (s.setThread t th).setGate g = (s.setGate g).setThread t th := rfl

@[simp] theorem setThread_log (s : Sys κ α) (t : ThreadId) (th : Thread κ α)
    (l : List (Obs α)) : (s.setThread t th).log l = (s.log l).setThread t th := rfl

@[simp] theorem setThread_setThread (s : Sys κ α) (t : ThreadId) (th th2 : Thread κ α) :
    (s.setThread t th).setThread t th2 = s.setThread t th2 := by
  simp [Sys.setThread]

theorem setThread_comm (s : Sys κ α) (t u : ThreadId) (th th2 : Thread κ α) (h : t ≠ u) :
    (s.setThread t th).setThread u th2 = (s.setThread u th2).setThread t th := by
  simp [Sys.setThread, Function.update_comm h]

@[simp] theorem setThread_shadow (s : Sys κ α) (t u : ThreadId) (th th2 th3 : Thread κ α) :
    ((s.setThread t th).setThread u th2).setThread t th3 =
      (s.setThread u th2).setThread t th3 := by
  by_cases h : t = u
  · subst h; simp
  · rw [setThread_comm _ t u _ _ h, setThread_setThread]

@[simp] theorem task_setGate (s : Sys κ α) (g : CEnsureThread) (o : ThreadId) :
    (s.setGate g).task o = s.task o := rfl

@[simp] theorem task_log (s : Sys κ α) (l : List (Obs α)) (o : ThreadId) :
    (s.log l).task o = s.task o := rfl

theorem task_setThread (s : Sys κ α) (t o : ThreadId) (th : Thread κ α) (h : o ≠ t) :
    (s.setThread t th).task o = s.task o := by
  simp [Sys.task, setThread_threads, h]

theorem runThread_some (P : Bodies κ α) (t : ThreadId) (n : Nat) (s s2 : Sys κ α)
    (h : step P s t = some s2) : runThread P t (n + 1) s = runThread P t n s2 := by
  simp [runThread, h]

theorem runThread_none (P : Bodies κ α) (t : ThreadId) (n : Nat) (s : Sys κ α)
    (h : step P s t = none) : runThread P t n s = s := by
  cases n <;> simp [runThread, h]

theorem runThread_add (P : Bodies κ α) (t : ThreadId) (m n : Nat) (s : Sys κ α) :
    runThread P t (m + n) s = runThread P t n (runThread P t m s) := by
  induction m generalizing s with
  | zero => simp [runThread]
  | succ m ih =>
    rw [Nat.succ_add]
    cases h : step P s t with
    | none => simp [runThread, h, runThread_none]
    | some s2 => simp [runThread, h, ih]

/-- A task whose owner is inside `wait_internal` with an empty shared state. -/
theorem task_stack (s : Sys κ α) (o : ThreadId) (c : κ) (slot : Option (Outcome α))
    (h : s.task o = some (c, slot)) :
    ∃ pc rest, (s.threads o).stack = .wait_internal pc c slot :: rest := by
  unfold Sys.task at h
  split at h
  · rename_i pc c2 slot2 rest heq
    simp at h
    exact ⟨pc, rest, by rw [heq, h.1, h.2]⟩
  · simp at h

/-- The steps of `poll_one` on a queue that is not empty, when the oldest task
runs to an outcome on the polling thread. -/
theorem poll_one_run (P : Bodies κ α) (s : Sys κ α) (t fn : ThreadId) (q : List ThreadId)
    (rest : List (Frame κ α)) (c : κ) (r : Outcome α)
    (hst : (s.threads t).stack = .poll_one .test :: rest)
    (hm : s.gate.m_mxQueue = none)
    (hq : s.gate.m_dqExecutors = fn :: q)
    (htask : s.task fn = some (c, none))
    (hbody : ∀ g, g.m_id = s.gate.m_id → P c g t = .done r) :
    runThread P t 6 s =
      ((((s.setGate { s.gate with m_dqExecutors := q }).log
        [.started t fn, .completed t fn r, .polled t true]).set_value fn r)).leave t rest
          (.flag true) := by
  obtain ⟨pc, rest2, hfn⟩ := task_stack s fn c none htask
  have hne : fn ≠ t := by
    rintro rfl
    rw [hst] at hfn; simp at hfn
  simp [runThread, step, hst, hm, hq, CEnsureThread.poll_one, Sys.goto, Sys.leave, Sys.set_value,
    setThread_threads, task_setThread, hne, htask, hbody]

theorem poll_one_empty_run (P : Bodies κ α) (s : Sys κ α) (t : ThreadId)
    (rest : List (Frame κ α))
    (hst : (s.threads t).stack = .poll_one .test :: rest)
    (hq : s.gate.m_dqExecutors = []) :
    step P s t = some ((s.log [.polled t false]).leave t rest (.flag false)) := by
  simp [step, hst, hq, CEnsureThread.poll_one]

theorem wait_internal_run (P : Bodies κ α) (s : Sys κ α) (t : ThreadId)
    (rest : List (Frame κ α)) (c : κ)
    (hst : (s.threads t).stack = .wait_internal .lock c none :: rest)
    (hm : s.gate.m_mxQueue = none) :
    runThread P t 3 s =
      (s.setGate { s.gate with m_dqExecutors := s.gate.m_dqExecutors ++ [t] }).goto t
        (.wait_internal .get c none :: rest) := by
  simp [runThread, step, hst, hm, CEnsureThread.wait_internal, Sys.goto, setThread_threads]

theorem wait_internal_blocked (P : Bodies κ α) (s : Sys κ α) (t : ThreadId)
    (rest : List (Frame κ α)) (c : κ)
    (hst : (s.threads t).stack = .wait_internal .get c none :: rest) :
    step P s t = none := by
  simp [step, hst, CEnsureThread.wait_internal]

theorem wait_internal_return (P : Bodies κ α) (s : Sys κ α) (t : ThreadId)
    (rest : List (Frame κ α)) (c : κ) (r : Outcome α)
    (hst : (s.threads t).stack = .wait_internal .get c (some r) :: rest) :
    step P s t = some (s.leave t rest (.outcome r)) := by
  simp [step, hst, CEnsureThread.wait_internal]

theorem poll_enter (P : Bodies κ α) (s : Sys κ α) (t : ThreadId) (rest : List (Frame κ α))
    (hst : (s.threads t).stack = .poll :: rest)
    (hret : (s.threads t).ret = none ∨ (s.threads t).ret = some (.flag true)) :
    step P s t = some (s.goto t (.poll_one .test :: .poll :: rest)) := by
  rcases hret with h | h <;> simp [step, hst, h, CEnsureThread.poll]

theorem poll_exit (P : Bodies κ α) (s : Sys κ α) (t : ThreadId) (rest : List (Frame κ α))
    (hst : (s.threads t).stack = .poll :: rest)
    (hret : (s.threads t).ret = some (.flag false)) :
    step P s t = some (s.leave t rest .void) := by
  simp [step, hst, hret, CEnsureThread.poll]

/-- The drain loop run alone on a queue whose tasks all run to an outcome on the
polling thread. -/
theorem poll_run (P : Bodies κ α) (t : ThreadId) (r : ThreadId → Outcome α)
    (rest : List (Frame κ α)) (q : List ThreadId) :
    ∀ s : Sys κ α,
      (s.threads t).stack = .poll :: rest →
      ((s.threads t).ret = none ∨ (s.threads t).ret = some (.flag true)) →
      s.gate.m_mxQueue = none →
      s.gate.m_dqExecutors = q →
      q.Nodup →
      (∀ fn ∈ q, ∃ c, s.task fn = some (c, none) ∧
        ∀ g : CEnsureThread, g.m_id = s.gate.m_id → P c g t = .done (r fn)) →
      (runThread P t (7 * q.length + 3) s).gate = { s.gate with m_dqExecutors := [] } ∧
      (runThread P t (7 * q.length + 3) s).trace =
        s.trace ++ q.flatMap (fun fn => [.started t fn, .completed t fn (r fn), .polled t true])
          ++ [.polled t false] ∧
      (runThread P t (7 * q.length + 3) s).threads t = { stack := rest, ret := some .void } ∧
      ∀ u, u ≠ t → (runThread P t (7 * q.length + 3) s).threads u =
        if u ∈ q then (s.threads u).set_value (r u) else s.threads u := by
  induction q with
  | nil =>
    intro s hst hret hm hq _ _
    have h1 := poll_enter P s t rest hst hret
    have h2 := poll_one_empty_run P (s.goto t (.poll_one .test :: .poll :: rest)) t (.poll :: rest)
      (by simp [goto_threads]) (by simpa using hq)
    have h3 := poll_exit P (((s.goto t (.poll_one .test :: .poll :: rest)).log
      [.polled t false]).leave t (.poll :: rest) (.flag false)) t rest
      (by simp [leave_threads]) (by simp [leave_threads])
    have : runThread P t 3 s = ((((s.goto t (.poll_one .test :: .poll :: rest)).log
      [.polled t false]).leave t (.poll :: rest) (.flag false))).leave t rest .void := by
      rw [runThread_some P t 2 _ _ h1, runThread_some P t 1 _ _ h2, runThread_some P t 0 _ _ h3]
      rfl
    simp only [List.length_nil, Nat.mul_zero, Nat.zero_add, this]
    refine ⟨?_, ?_, ?_, ?_⟩
    · simp [← hq]
    · simp
    · simp [leave_threads]
    · intro u hu
      simp [leave_threads, goto_threads, hu]
  | cons fn q ih =>
    intro s hst hret hm hq hnd hall
    obtain ⟨c, htask, hbody⟩ := hall fn (List.mem_cons_self _ _)
    obtain ⟨pc, rest2, hfn⟩ := task_stack s fn c none htask
    have hne : fn ≠ t := by
      rintro rfl
      rw [hst] at hfn; simp at hfn
    have h1 := poll_enter P s t rest hst hret
    have h2 := poll_one_run P (s.goto t (.poll_one .test :: .poll :: rest)) t fn q (.poll :: rest)
      c (r fn) (by simp [goto_threads]) (by simpa using hm) (by simpa using hq)
      (by simp [Sys.goto, task_setThread, hne, htask]) (by simpa using hbody)
    have hsplit : 7 * (fn :: q).length + 3 = 1 + (6 + (7 * q.length + 3)) := by
      simp [List.length_cons]; ring
    rw [hsplit, runThread_add, runThread_add]
    have h1b : runThread P t 1 s = s.goto t (.poll_one .test :: .poll :: rest) := by
      rw [runThread_some P t 0 _ _ h1]; rfl
    rw [h1b, h2]
    have hnd2 := List.nodup_cons.mp hnd
    set s2 := (((((s.goto t (.poll_one .test :: .poll :: rest)).setGate
      { (s.goto t (.poll_one .test :: .poll :: rest)).gate with m_dqExecutors := q }).log
        [.started t fn, .completed t fn (r fn), .polled t true]).set_value fn (r fn))).leave t
          (.poll :: rest) (.flag true) with hs2
    have ht2 : ∀ u, s2.threads u =
        if u = t then { stack := .poll :: rest, ret := some (.flag true) }
        else if u = fn then (s.threads fn).set_value (r fn) else s.threads u := by
      intro u
      simp only [hs2, leave_threads, set_value_threads, log_threads, setGate_threads,
        goto_threads]
      split_ifs <;> simp_all
    obtain ⟨g1, g2, g3, g4⟩ := ih s2 (by simp [ht2]) (by simp [ht2]) (by simp [hs2, hm])
      (by simp [hs2]) hnd2.2 (by
        intro fn2 hfn2
        obtain ⟨c2, htask2, hbody2⟩ := hall fn2 (List.mem_cons_of_mem _ hfn2)
        obtain ⟨pc2, rest3, hfn3⟩ := task_stack s fn2 c2 none htask2
        have hne2 : fn2 ≠ t := by
          rintro rfl
          rw [hst] at hfn3; simp at hfn3
        have hne3 : fn2 ≠ fn := by
          rintro rfl
          exact hnd2.1 hfn2
        refine ⟨c2, ?_, ?_⟩
        · simp only [Sys.task, ht2, hne2, hne3, if_false]
          simpa [Sys.task] using htask2
        · simpa [hs2] using hbody2)
    refine ⟨?_, ?_, ?_, ?_⟩
    · rw [g1]; simp [hs2]
    · rw [g2]; simp [hs2]
    · exact g3
    · intro u hu
      rw [g4 u hu, ht2]
      simp only [hu, if_false, List.mem_cons]
      by_cases h1 : u = fn
      · subst h1; simp [hnd2.1]
      · simp [h1]
/-! ## The rules of the step function -/

/-- Every step of `step` is an instance of one rule of `Step`. -/
theorem step_sound (P : Bodies κ α) (s s2 : Sys κ α) (t : ThreadId) (h : step P s t = some s2) :
    Step P s t s2 := by
  unfold step at h
  split at h
  · simp at h
  · rename_i c rest hst
    unfold invoke at h
    split at h <;> (simp at h; subst h)
    · exact .invoke_done c rest _ hst (by assumption)
    · exact .invoke_wait c rest _ hst (by assumption)
  · rename_i pc c task rest hst
    cases pc <;> simp only [CEnsureThread.wait_internal] at h
    · split at h <;> simp at h
      subst h; exact .wait_lock c task rest hst (by assumption)
    · simp at h; subst h; exact .wait_emplace_back c task rest hst
    · split at h <;> simp at h
      subst h; exact .wait_unlock c task rest hst (by assumption)
    · split at h <;> simp at h
      subst h; exact .wait_get c _ rest hst
  · rename_i pc rest hst
    cases pc <;> simp only [CEnsureThread.poll_one] at h
    · split at h <;> (simp at h; subst h)
      · rename_i he
        exact .poll_one_empty rest hst (List.isEmpty_iff.mp he)
      · rename_i he
        exact .poll_one_test rest hst (fun hq => he (List.isEmpty_iff.mpr hq))
    · split at h <;> simp at h
      subst h; exact .poll_one_lock rest hst (by assumption)
    · split at h <;> simp at h
      subst h; exact .poll_one_front rest _ _ hst (by assumption)
    · split at h <;> simp at h
      subst h; exact .poll_one_pop_front rest _ _ _ hst (by assumption)
    · split at h <;> simp at h
      subst h; exact .poll_one_unlock rest _ hst (by assumption)
    · split at h
      · simp at h
      · simp at h; subst h; exact .poll_one_call_again rest _ _ _ hst (by assumption)
      · split at h <;> (simp at h; subst h)
        · exact .poll_one_call_done rest _ _ _ hst (by assumption) (by assumption)
        · exact .poll_one_call_wait rest _ _ _ hst (by assumption) (by assumption)
    · split at h <;> simp at h
      subst h; exact .poll_one_finish rest _ _ hst (by assumption)
  · rename_i rest hst
    unfold CEnsureThread.poll at h
    split at h <;> simp at h <;> subst h
    · exact .poll_enter rest hst (Or.inl (by assumption))
    · exact .poll_enter rest hst (Or.inr (by assumption))
    · exact .poll_exit rest hst (by assumption)

/-! ## The invariant of the gate -/

theorem loopTail_cases (rest : List (Frame κ α)) (h : loopTail rest = true) :
    rest = [] ∨ rest = [.poll] := by
  unfold loopTail at h
  split at h <;> simp_all

theorem loopTail_attrs (rest : List (Frame κ α)) (h : loopTail rest = true) :
    shaped rest = true ∧ slotOk rest = true ∧ critical rest = false ∧ pending rest = false ∧
      waiting rest = false ∧ holding rest = none ∧ fronted rest = none := by
  rcases loopTail_cases rest h with rfl | rfl <;>
    simp [shaped, slotOk, critical, pending, waiting, holding, fronted, Frame.holding]

theorem shaped_poll_one (pc : PollPc) (rest : List (Frame κ α)) :
    shaped (.poll_one pc :: rest) = loopTail rest := by
  simp [shaped]

theorem shaped_invoke (c : κ) (rest : List (Frame κ α)) (h : shaped (.invoke c :: rest) = true) :
    rest = [] := by
  cases rest with
  | nil => rfl
  | cons f l => simp [shaped] at h

theorem shaped_poll (rest : List (Frame κ α)) (h : shaped (.poll :: rest) = true) :
    rest = [] := by
  cases rest with
  | nil => rfl
  | cons f l => simp [shaped] at h

theorem shaped_wait_cases (pc : WaitPc) (c : κ) (task : Option (Outcome α))
    (rest : List (Frame κ α)) (h : shaped (.wait_internal pc c task :: rest) = true) :
    rest = [] ∨ ∃ fn l, rest = .poll_one (.finish fn) :: l ∧ loopTail l = true := by
  cases rest with
  | nil => exact Or.inl rfl
  | cons f l =>
    right
    cases f with
    | poll_one pc2 =>
      cases pc2 <;> simp [shaped] at h
      exact ⟨_, _, rfl, h⟩
    | _ => simp [shaped] at h

theorem shaped_wait_any (pc pc2 : WaitPc) (c c2 : κ) (task task2 : Option (Outcome α))
    (rest : List (Frame κ α)) (h : shaped (.wait_internal pc c task :: rest) = true) :
    shaped (.wait_internal pc2 c2 task2 :: rest) = true := by
  rcases shaped_wait_cases pc c task rest h with rfl | ⟨fn, l, rfl, hl⟩
  · simp [shaped]
  · simpa [shaped] using hl

theorem under_wait_attrs (pc : WaitPc) (c : κ) (task : Option (Outcome α))
    (rest : List (Frame κ α)) (h : shaped (.wait_internal pc c task :: rest) = true) :
    shaped rest = true ∧ slotOk rest = true ∧ critical rest = false ∧ pending rest = false ∧
      waiting rest = false ∧ fronted rest = none := by
  rcases shaped_wait_cases pc c task rest h with rfl | ⟨fn, l, rfl, hl⟩
  · simp [shaped, slotOk, critical, pending, waiting, fronted]
  · simp [shaped, slotOk, critical, pending, waiting, fronted, hl]

theorem holding_wait (pc : WaitPc) (c : κ) (task : Option (Outcome α))
    (rest : List (Frame κ α)) : holding (.wait_internal pc c task :: rest) = holding rest := by
  simp [holding, Frame.holding]

theorem waiting_stack (st : List (Frame κ α)) (h : waiting st = true) :
    ∃ c rest, st = .wait_internal .get c none :: rest := by
  unfold waiting at h
  split at h
  · exact ⟨_, _, rfl⟩
  · simp at h

theorem waiting_of_pending (st : List (Frame κ α)) (h : pending st = true)
    (hc : critical st = false) : waiting st = true := by
  unfold pending at h
  split at h
  · simp [critical] at hc
  · simp [waiting]
  · simp at h

theorem critical_of_fronted (st : List (Frame κ α)) (fn : ThreadId) (h : fronted st = some fn) :
    critical st = true := by
  unfold fronted at h
  split at h
  · simp [critical]
  · simp at h

/-- A step of thread `t` that leaves the queue alone and fills no shared state
keeps the invariant, when the new stack of `t` claims nothing new. -/
theorem Inv.transfer {s : Sys κ α} (hinv : Inv s) (t : ThreadId) (s2 : Sys κ α)
    (hq : s2.gate.m_dqExecutors = s.gate.m_dqExecutors)
    (hl1 : s2.gate.m_mxQueue = some t ↔ critical (s2.threads t).stack = true)
    (hl2 : ∀ u, u ≠ t → (s2.gate.m_mxQueue = some u ↔ s.gate.m_mxQueue = some u))
    (ho : ∀ u, u ≠ t → (s2.threads u).stack = (s.threads u).stack)
    (h1 : shaped (s2.threads t).stack = true)
    (h2 : slotOk (s2.threads t).stack = true)
    (h4 : pending (s.threads t).stack = true → pending (s2.threads t).stack = true)
    (h5 : waiting (s.threads t).stack = true → waiting (s2.threads t).stack = true)
    (h6 : ∀ fn, holding (s2.threads t).stack = some fn → holding (s.threads t).stack = some fn)
    (h7 : ∀ fn, fronted (s2.threads t).stack = some fn →
      s.gate.m_dqExecutors.head? = some fn) : Inv s2 := by
  have hold : ∀ u fn, holding (s2.threads u).stack = some fn →
      holding (s.threads u).stack = some fn := by
    intro u fn h
    by_cases hu : u = t
    · subst hu; exact h6 fn h
    · rwa [ho u hu] at h
  have hwait : ∀ u, waiting (s.threads u).stack = true → waiting (s2.threads u).stack = true := by
    intro u h
    by_cases hu : u = t
    · subst hu; exact h5 h
    · rwa [ho u hu]
  constructor
  · intro u
    by_cases hu : u = t
    · subst hu; exact h1
    · rw [ho u hu]; exact hinv.shape u
  · intro u
    by_cases hu : u = t
    · subst hu; exact h2
    · rw [ho u hu]; exact hinv.slot u
  · intro u
    by_cases hu : u = t
    · subst hu; exact hl1
    · rw [ho u hu, hl2 u hu]; exact hinv.lock u
  · rw [hq]; exact hinv.nodup
  · intro o hmem
    rw [hq] at hmem
    by_cases hu : o = t
    · subst hu; exact h4 (hinv.queued o hmem)
    · rw [ho o hu]; exact hinv.queued o hmem
  · intro u fn h
    obtain ⟨a, b⟩ := hinv.held u fn (hold u fn h)
    rw [hq]
    exact ⟨a, hwait fn b⟩
  · intro u v fn hu hv
    exact hinv.held_unique u v fn (hold u fn hu) (hold v fn hv)
  · intro u fn h
    rw [hq]
    by_cases hu : u = t
    · subst hu; exact h7 fn h
    · rw [ho u hu] at h; exact hinv.front u fn h

/-- A step of thread `t` outside the critical sections that keeps the gate. -/
theorem Inv.move_plain {s : Sys κ α} (hinv : Inv s) (t : ThreadId) (st st2 : List (Frame κ α))
    (s2 : Sys κ α) (hst : (s.threads t).stack = st)
    (hg : s2.gate = s.gate)
    (ho : ∀ u, u ≠ t → s2.threads u = s.threads u)
    (hst2 : (s2.threads t).stack = st2)
    (hc : critical st2 = critical st)
    (h1 : shaped st2 = true) (h2 : slotOk st2 = true)
    (h4 : pending st = true → pending st2 = true)
    (h5 : waiting st = true → waiting st2 = true)
    (h6 : ∀ fn, holding st2 = some fn → holding st = some fn)
    (h7 : ∀ fn, fronted st2 = some fn → s.gate.m_dqExecutors.head? = some fn) : Inv s2 := by
  refine hinv.transfer t s2 (by rw [hg]) ?_ (fun u _ => by rw [hg])
    (fun u hu => by rw [ho u hu]) (by rwa [hst2]) (by rwa [hst2]) (by rwa [hst, hst2])
    (by rwa [hst, hst2]) (by rwa [hst, hst2]) (by rwa [hst2])
  rw [hst2, hg, hc, ← hst]
  exact hinv.lock t

/-- A step of thread `t` that locks the mutex. -/
theorem Inv.move_lock {s : Sys κ α} (hinv : Inv s) (t : ThreadId) (st st2 : List (Frame κ α))
    (s2 : Sys κ α) (hst : (s.threads t).stack = st)
    (hm : s.gate.m_mxQueue = none)
    (hg : s2.gate = { s.gate with m_mxQueue := some t })
    (ho : ∀ u, u ≠ t → s2.threads u = s.threads u)
    (hst2 : (s2.threads t).stack = st2)
    (hc : critical st2 = true)
    (h1 : shaped st2 = true) (h2 : slotOk st2 = true)
    (h4 : pending st = true → pending st2 = true)
    (h5 : waiting st = true → waiting st2 = true)
    (h6 : ∀ fn, holding st2 = some fn → holding st = some fn)
    (h7 : fronted st2 = none) : Inv s2 := by
  refine hinv.transfer t s2 (by rw [hg]) ?_ ?_
    (fun u hu => by rw [ho u hu]) (by rwa [hst2]) (by rwa [hst2]) (by rwa [hst, hst2])
    (by rwa [hst, hst2]) (by rwa [hst, hst2]) (by rw [hst2, h7]; simp)
  · rw [hst2, hg, hc]; simp
  · intro u hu
    rw [hg, hm]
    simp [Ne.symm hu]

/-- A step of thread `t` that unlocks the mutex. -/
theorem Inv.move_unlock {s : Sys κ α} (hinv : Inv s) (t : ThreadId) (st st2 : List (Frame κ α))
    (s2 : Sys κ α) (hst : (s.threads t).stack = st)
    (hm : s.gate.m_mxQueue = some t)
    (hg : s2.gate = { s.gate with m_mxQueue := none })
    (ho : ∀ u, u ≠ t → s2.threads u = s.threads u)
    (hst2 : (s2.threads t).stack = st2)
    (hc : critical st2 = false)
    (h1 : shaped st2 = true) (h2 : slotOk st2 = true)
    (h4 : pending st = true → pending st2 = true)
    (h5 : waiting st = true → waiting st2 = true)
    (h6 : ∀ fn, holding st2 = some fn → holding st = some fn)
    (h7 : fronted st2 = none) : Inv s2 := by
  refine hinv.transfer t s2 (by rw [hg]) ?_ ?_
    (fun u hu => by rw [ho u hu]) (by rwa [hst2]) (by rwa [hst2]) (by rwa [hst, hst2])
    (by rwa [hst, hst2]) (by rwa [hst, hst2]) (by rw [hst2, h7]; simp)
  · rw [hst2, hg, hc]; simp
  · intro u hu
    rw [hg, hm]
    simp [Ne.symm hu]

/-- The step `emplace_back` of `wait_internal` keeps the invariant. -/
theorem Inv.emplace {s : Sys κ α} (hinv : Inv s) (t : ThreadId) (c : κ)
    (task : Option (Outcome α)) (rest : List (Frame κ α)) (s2 : Sys κ α)
    (hst : (s.threads t).stack = .wait_internal .emplace_back c task :: rest)
    (hg : s2.gate = { s.gate with m_dqExecutors := s.gate.m_dqExecutors ++ [t] })
    (ho : ∀ u, u ≠ t → s2.threads u = s.threads u)
    (hst2 : (s2.threads t).stack = .wait_internal .unlock c task :: rest) : Inv s2 := by
  have hsh := hinv.shape t
  have hsl := hinv.slot t
  rw [hst] at hsh hsl
  have htask : task = none := by
    cases task with
    | none => rfl
    | some r => simp [slotOk] at hsl
  subst htask
  have htq : t ∉ s.gate.m_dqExecutors := by
    intro hmem
    have := hinv.queued t hmem
    rw [hst] at this
    simp [pending] at this
  have hold : ∀ u fn, holding (s2.threads u).stack = some fn →
      holding (s.threads u).stack = some fn := by
    intro u fn h
    by_cases hu : u = t
    · subst hu
      rw [hst2, holding_wait] at h
      rwa [hst, holding_wait]
    · rwa [ho u hu] at h
  have hnw : ∀ fn, waiting (s.threads fn).stack = true → fn ≠ t := by
    rintro fn h rfl
    rw [hst] at h
    simp [waiting] at h
  constructor
  · intro u
    by_cases hu : u = t
    · subst hu; rw [hst2]; exact shaped_wait_any _ _ _ _ _ _ _ hsh
    · rw [ho u hu]; exact hinv.shape u
  · intro u
    by_cases hu : u = t
    · subst hu; rw [hst2]; simp [slotOk]
    · rw [ho u hu]; exact hinv.slot u
  · intro u
    rw [hg]
    by_cases hu : u = t
    · subst hu
      have := hinv.lock u
      rw [hst] at this
      rw [hst2]
      simpa [critical] using this
    · rw [ho u hu]; exact hinv.lock u
  · rw [hg]
    simp only
    rw [List.nodup_append]
    refine ⟨hinv.nodup, List.nodup_singleton _, ?_⟩
    intro a ha hb
    simp at hb
    subst hb
    exact htq ha
  · intro o hmem
    rw [hg] at hmem
    simp at hmem
    by_cases hu : o = t
    · subst hu; rw [hst2]; simp [pending]
    · rw [ho o hu]
      rcases hmem with h | h
      · exact hinv.queued o h
      · exact absurd h hu
  · intro u fn h
    obtain ⟨a, b⟩ := hinv.held u fn (hold u fn h)
    have hfn := hnw fn b
    rw [hg, ho fn hfn]
    simp
    exact ⟨⟨a, hfn⟩, b⟩
  · intro u v fn hu hv
    exact hinv.held_unique u v fn (hold u fn hu) (hold v fn hv)
  · intro u fn h
    rw [hg]
    by_cases hu : u = t
    · subst hu
      rw [hst2] at h
      simp [fronted] at h
    · rw [ho u hu] at h
      have := hinv.front u fn h
      cases hq : s.gate.m_dqExecutors with
      | nil => rw [hq] at this; simp at this
      | cons a l => rw [hq] at this; simpa using this

/-- The step `pop_front` of `poll_one` keeps the invariant. -/
theorem Inv.pop {s : Sys κ α} (hinv : Inv s) (t fn fn2 : ThreadId) (q : List ThreadId)
    (rest : List (Frame κ α)) (s2 : Sys κ α)
    (hst : (s.threads t).stack = .poll_one (.pop_front fn) :: rest)
    (hq : s.gate.m_dqExecutors = fn2 :: q)
    (hg : s2.gate = { s.gate with m_dqExecutors := q })
    (ho : ∀ u, u ≠ t → s2.threads u = s.threads u)
    (hst2 : (s2.threads t).stack = .poll_one (.unlock fn) :: rest) : Inv s2 := by
  have hsh := hinv.shape t
  rw [hst, shaped_poll_one] at hsh
  obtain ⟨_, _, _, _, _, hrest, _⟩ := loopTail_attrs rest hsh
  have hfr := hinv.front t fn (by rw [hst]; simp [fronted])
  rw [hq] at hfr
  simp at hfr
  subst hfr
  have hnd := hinv.nodup
  rw [hq] at hnd
  obtain ⟨hnotin, hnd2⟩ := List.nodup_cons.mp hnd
  have hmx : s.gate.m_mxQueue = some t := by
    rw [hinv.lock t, hst]; simp [critical]
  have hpt : pending (s.threads t).stack = false := by
    rw [hst]; simp [pending]
  have hwt : waiting (s.threads t).stack = false := by
    rw [hst]; simp [waiting]
  have hne : ∀ o, pending (s.threads o).stack = true → o ≠ t := by
    rintro o h rfl
    rw [hpt] at h; simp at h
  have hnw : ∀ o, waiting (s.threads o).stack = true → o ≠ t := by
    rintro o h rfl
    rw [hwt] at h; simp at h
  have hfnp : pending (s.threads fn2).stack = true :=
    hinv.queued fn2 (by rw [hq]; simp)
  have hfnt : fn2 ≠ t := hne fn2 hfnp
  have hfnw : waiting (s.threads fn2).stack = true := by
    apply waiting_of_pending _ hfnp
    by_contra hcr
    simp at hcr
    have := (hinv.lock fn2).mpr hcr
    rw [hmx] at this
    simp at this
    exact hfnt this.symm
  have hold : ∀ u fn, u ≠ t → holding (s2.threads u).stack = some fn →
      holding (s.threads u).stack = some fn := by
    intro u fn hu h
    rwa [ho u hu] at h
  have holdt : ∀ fn, holding (s2.threads t).stack = some fn → fn = fn2 := by
    intro fn h
    rw [hst2] at h
    simp [holding, Frame.holding] at h
    exact h.symm
  constructor
  · intro u
    by_cases hu : u = t
    · subst hu; rw [hst2, shaped_poll_one]; exact hsh
    · rw [ho u hu]; exact hinv.shape u
  · intro u
    by_cases hu : u = t
    · subst hu; rw [hst2]; simp [slotOk]
    · rw [ho u hu]; exact hinv.slot u
  · intro u
    rw [hg]
    by_cases hu : u = t
    · subst hu
      rw [hst2]
      simpa [critical] using hmx
    · rw [ho u hu]; exact hinv.lock u
  · rw [hg]; exact hnd2
  · intro o hmem
    rw [hg] at hmem
    have hmem2 : o ∈ s.gate.m_dqExecutors := by rw [hq]; exact List.mem_cons_of_mem _ hmem
    have hp := hinv.queued o hmem2
    rw [ho o (hne o hp)]
    exact hp
  · intro u fn h
    rw [hg]
    by_cases hu : u = t
    · subst hu
      have := holdt fn h
      subst this
      rw [ho fn hfnt]
      exact ⟨hnotin, hfnw⟩
    · obtain ⟨a, b⟩ := hinv.held u fn (hold u fn hu h)
      rw [hq] at a
      rw [ho fn (hnw fn b)]
      exact ⟨fun hm => a (List.mem_cons_of_mem _ hm), b⟩
  · intro u v fn hu hv
    by_cases h1 : u = t
    · by_cases h2 : v = t
      · rw [h1, h2]
      · exfalso
        subst h1
        have := holdt fn hu
        subst this
        have := (hinv.held v fn (hold v fn h2 hv)).1
        rw [hq] at this
        simp at this
    · by_cases h2 : v = t
      · exfalso
        subst h2
        have := holdt fn hv
        subst this
        have := (hinv.held u fn (hold u fn h1 hu)).1
        rw [hq] at this
        simp at this
      · exact hinv.held_unique u v fn (hold u fn h1 hu) (hold v fn h2 hv)
  · intro u fn h
    exfalso
    by_cases hu : u = t
    · subst hu
      rw [hst2] at h
      simp [fronted] at h
    · rw [ho u hu] at h
      have := (hinv.lock u).mpr (critical_of_fronted _ fn h)
      rw [hmx] at this
      simp at this
      exact hu this.symm

/-- The end of the execution of a task (`task()` stores the outcome, `poll_one`
returns) keeps the invariant. -/
theorem Inv.fulfil {s : Sys κ α} (hinv : Inv s) (t fn : ThreadId) (pc : PollPc)
    (rest : List (Frame κ α)) (r : Outcome α) (s2 : Sys κ α)
    (hst : (s.threads t).stack = .poll_one pc :: rest)
    (hpc : pc = .call fn ∨ pc = .finish fn)
    (hg : s2.gate = s.gate)
    (hst2 : (s2.threads t).stack = rest)
    (hfn : fn ≠ t → (s2.threads fn).stack = ((s.threads fn).set_value r).stack)
    (ho : ∀ u, u ≠ t → u ≠ fn → s2.threads u = s.threads u) : Inv s2 := by
  have hsh := hinv.shape t
  rw [hst, shaped_poll_one] at hsh
  obtain ⟨r1, r2, r3, r4, r5, r6, r7⟩ := loopTail_attrs rest hsh
  have hhold : holding (s.threads t).stack = some fn := by
    rw [hst]
    rcases hpc with rfl | rfl <;> simp [holding, Frame.holding]
  have hct : critical (s.threads t).stack = false := by
    rw [hst]
    rcases hpc with rfl | rfl <;> simp [critical]
  have hpt : pending (s.threads t).stack = false := by
    rw [hst]; simp [pending]
  have hwt : waiting (s.threads t).stack = false := by
    rw [hst]; simp [waiting]
  obtain ⟨hnotin, hw⟩ := hinv.held t fn hhold
  obtain ⟨c, rfn, hfnst⟩ := waiting_stack _ hw
  have hfnt : fn ≠ t := by
    rintro rfl
    rw [hwt] at hw; simp at hw
  have hfn2 : (s2.threads fn).stack = .wait_internal .get c (some r) :: rfn := by
    rw [hfn hfnt]
    simp [Thread.set_value, hfnst]
  have hshfn := hinv.shape fn
  rw [hfnst] at hshfn
  have hstack : ∀ u, u ≠ t → u ≠ fn → (s2.threads u).stack = (s.threads u).stack := by
    intro u h1 h2
    rw [ho u h1 h2]
  have hold : ∀ u f, holding (s2.threads u).stack = some f →
      u ≠ t ∧ holding (s.threads u).stack = some f := by
    intro u f h
    by_cases h1 : u = t
    · subst h1
      rw [hst2, r6] at h
      simp at h
    · refine ⟨h1, ?_⟩
      by_cases h2 : u = fn
      · subst h2
        rw [hfn2, holding_wait] at h
        rwa [hfnst, holding_wait]
      · rwa [hstack u h1 h2] at h
  constructor
  · intro u
    by_cases h1 : u = t
    · subst h1; rw [hst2]; exact r1
    · by_cases h2 : u = fn
      · subst h2; rw [hfn2]; exact shaped_wait_any _ _ _ _ _ _ _ hshfn
      · rw [hstack u h1 h2]; exact hinv.shape u
  · intro u
    by_cases h1 : u = t
    · subst h1; rw [hst2]; exact r2
    · by_cases h2 : u = fn
      · subst h2; rw [hfn2]; simp [slotOk]
      · rw [hstack u h1 h2]; exact hinv.slot u
  · intro u
    rw [hg]
    by_cases h1 : u = t
    · subst h1
      rw [hst2, r3, hinv.lock u, hct]
    · by_cases h2 : u = fn
      · subst h2
        rw [hfn2, hinv.lock u, hfnst]
        simp [critical]
      · rw [hstack u h1 h2]; exact hinv.lock u
  · rw [hg]; exact hinv.nodup
  · intro o hmem
    rw [hg] at hmem
    have hp := hinv.queued o hmem
    have h1 : o ≠ t := by
      rintro rfl
      rw [hpt] at hp; simp at hp
    have h2 : o ≠ fn := by
      rintro rfl
      exact hnotin hmem
    rw [hstack o h1 h2]
    exact hp
  · intro u f h
    obtain ⟨hut, hu⟩ := hold u f h
    obtain ⟨a, b⟩ := hinv.held u f hu
    have h1 : f ≠ t := by
      rintro rfl
      rw [hwt] at b; simp at b
    have h2 : f ≠ fn := by
      rintro rfl
      exact hut (hinv.held_unique u t f hu hhold)
    rw [hg, hstack f h1 h2]
    exact ⟨a, b⟩
  · intro u v f hu hv
    exact hinv.held_unique u v f (hold u f hu).2 (hold v f hv).2
  · intro u f h
    rw [hg]
    by_cases h1 : u = t
    · subst h1
      rw [hst2, r7] at h
      simp at h
    · by_cases h2 : u = fn
      · subst h2
        rw [hfn2] at h
        simp [fronted] at h
      · rw [hstack u h1 h2] at h
        exact hinv.front u f h

/-- Every step keeps the invariant. -/
theorem Inv.step {P : Bodies κ α} {s s2 : Sys κ α} {t : ThreadId} (hinv : Inv s)
    (h : Step P s t s2) : Inv s2 := by
  have hsh := hinv.shape t
  have hsl := hinv.slot t
  cases h with
  | invoke_done c rest r hst hb =>
    rw [hst] at hsh
    have := shaped_invoke c rest hsh
    subst this
    exact hinv.move_plain t _ [] _ hst rfl (fun u hu => by simp [leave_threads, hu])
      (by simp [leave_threads]) (by simp [critical]) (by simp [shaped]) (by simp [slotOk])
      (by simp [pending]) (by simp [waiting]) (by simp [holding]) (by simp [fronted])
  | invoke_wait c rest c2 hst hb =>
    rw [hst] at hsh
    have := shaped_invoke c rest hsh
    subst this
    exact hinv.move_plain t _ [.wait_internal .lock c2 none] _ hst rfl
      (fun u hu => by simp [goto_threads, hu])
      (by simp [goto_threads]) (by simp [critical]) (by simp [shaped]) (by simp [slotOk])
      (by simp [pending]) (by simp [waiting]) (by simp [holding, Frame.holding])
      (by simp [fronted])
  | wait_lock c task rest hst hm =>
    rw [hst] at hsh hsl
    have htask : task = none := by
      cases task with
      | none => rfl
      | some r => simp [slotOk] at hsl
    subst htask
    exact hinv.move_lock t _ (.wait_internal .emplace_back c none :: rest) _ hst hm rfl
      (fun u hu => by simp [goto_threads, hu])
      (by simp [goto_threads]) (by simp [critical]) (shaped_wait_any _ _ _ _ _ _ _ hsh)
      (by simp [slotOk]) (by simp [pending]) (by simp [waiting])
      (by simp [holding_wait]) (by simp [fronted])
  | wait_emplace_back c task rest hst =>
    exact hinv.emplace t c task rest _ hst rfl (fun u hu => by simp [goto_threads, hu])
      (by simp [goto_threads])
  | wait_unlock c task rest hst hm =>
    rw [hst] at hsh
    exact hinv.move_unlock t _ (.wait_internal .get c task :: rest) _ hst hm rfl
      (fun u hu => by simp [goto_threads, hu])
      (by simp [goto_threads]) (by simp [critical]) (shaped_wait_any _ _ _ _ _ _ _ hsh)
      (by simp [slotOk]) (by cases task <;> simp [pending]) (by simp [waiting])
      (by simp [holding_wait]) (by simp [fronted])
  | wait_get c r rest hst =>
    rw [hst] at hsh
    obtain ⟨a1, a2, a3, a4, a5, a6⟩ := under_wait_attrs _ _ _ _ hsh
    exact hinv.move_plain t _ rest _ hst rfl (fun u hu => by simp [leave_threads, hu])
      (by simp [leave_threads]) (by rw [a3]; simp [critical]) a1 a2
      (by simp [pending]) (by simp [waiting]) (by simp [holding_wait]) (by simp [a6])
  | poll_one_empty rest hst hq =>
    rw [hst, shaped_poll_one] at hsh
    obtain ⟨a1, a2, a3, a4, a5, a6, a7⟩ := loopTail_attrs rest hsh
    exact hinv.move_plain t _ rest _ hst rfl (fun u hu => by simp [leave_threads, hu])
      (by simp [leave_threads]) (by rw [a3]; simp [critical]) a1 a2
      (by simp [pending]) (by simp [waiting]) (by simp [a6]) (by simp [a7])
  | poll_one_test rest hst hq =>
    rw [hst, shaped_poll_one] at hsh
    obtain ⟨a1, a2, a3, a4, a5, a6, a7⟩ := loopTail_attrs rest hsh
    exact hinv.move_plain t _ (.poll_one .lock :: rest) _ hst rfl
      (fun u hu => by simp [goto_threads, hu])
      (by simp [goto_threads]) (by simp [critical]) (by simpa [shaped_poll_one] using hsh)
      (by simp [slotOk]) (by simp [pending]) (by simp [waiting])
      (by simp [holding, Frame.holding]) (by simp [fronted])
  | poll_one_lock rest hst hm =>
    rw [hst, shaped_poll_one] at hsh
    obtain ⟨a1, a2, a3, a4, a5, a6, a7⟩ := loopTail_attrs rest hsh
    exact hinv.move_lock t _ (.poll_one .front :: rest) _ hst hm rfl
      (fun u hu => by simp [goto_threads, hu])
      (by simp [goto_threads]) (by simp [critical]) (by simpa [shaped_poll_one] using hsh)
      (by simp [slotOk]) (by simp [pending]) (by simp [waiting])
      (by simp [holding, Frame.holding]) (by simp [fronted])
  | poll_one_front rest fn q hst hq =>
    rw [hst, shaped_poll_one] at hsh
    obtain ⟨a1, a2, a3, a4, a5, a6, a7⟩ := loopTail_attrs rest hsh
    exact hinv.move_plain t _ (.poll_one (.pop_front fn) :: rest) _ hst rfl
      (fun u hu => by simp [goto_threads, hu])
      (by simp [goto_threads]) (by simp [critical]) (by simpa [shaped_poll_one] using hsh)
      (by simp [slotOk]) (by simp [pending]) (by simp [waiting])
      (by simp [holding, Frame.holding]) (by simp [fronted, hq])
  | poll_one_pop_front rest fn fn2 q hst hq =>
    exact hinv.pop t fn fn2 q rest _ hst hq rfl (fun u hu => by simp [goto_threads, hu])
      (by simp [goto_threads])
  | poll_one_unlock rest fn hst hm =>
    rw [hst, shaped_poll_one] at hsh
    obtain ⟨a1, a2, a3, a4, a5, a6, a7⟩ := loopTail_attrs rest hsh
    exact hinv.move_unlock t _ (.poll_one (.call fn) :: rest) _ hst hm rfl
      (fun u hu => by simp [goto_threads, hu])
      (by simp [goto_threads]) (by simp [critical]) (by simpa [shaped_poll_one] using hsh)
      (by simp [slotOk]) (by simp [pending]) (by simp [waiting])
      (by simp [holding, Frame.holding]) (by simp [fronted])
  | poll_one_call_again rest fn c r0 hst htask =>
    rw [hst, shaped_poll_one] at hsh
    obtain ⟨a1, a2, a3, a4, a5, a6, a7⟩ := loopTail_attrs rest hsh
    exact hinv.move_plain t _ rest _ hst rfl (fun u hu => by simp [leave_threads, hu])
      (by simp [leave_threads]) (by rw [a3]; simp [critical]) a1 a2
      (by simp [pending]) (by simp [waiting]) (by simp [a6]) (by simp [a7])
  | poll_one_call_done rest fn c r hst htask hb =>
    exact hinv.fulfil t fn (.call fn) rest r _ hst (Or.inl rfl) rfl
      (by simp [leave_threads])
      (fun hne => by simp [leave_threads, set_value_threads, hne])
      (fun u h1 h2 => by simp [leave_threads, set_value_threads, h1, h2])
  | poll_one_call_wait rest fn c c2 hst htask hb =>
    rw [hst, shaped_poll_one] at hsh
    obtain ⟨a1, a2, a3, a4, a5, a6, a7⟩ := loopTail_attrs rest hsh
    exact hinv.move_plain t _ (.wait_internal .lock c2 none :: .poll_one (.finish fn) :: rest) _
      hst rfl (fun u hu => by simp [goto_threads, hu])
      (by simp [goto_threads]) (by simp [critical]) (by simpa [shaped] using hsh)
      (by simp [slotOk]) (by simp [pending]) (by simp [waiting])
      (by simp [holding, Frame.holding]) (by simp [fronted])
  | poll_one_finish rest fn r hst hret =>
    exact hinv.fulfil t fn (.finish fn) rest r _ hst (Or.inr rfl) rfl
      (by simp [leave_threads])
      (fun hne => by simp [leave_threads, set_value_threads, hne])
      (fun u h1 h2 => by simp [leave_threads, set_value_threads, h1, h2])
  | poll_enter rest hst hret =>
    rw [hst] at hsh
    have := shaped_poll rest hsh
    subst this
    exact hinv.move_plain t _ [.poll_one .test, .poll] _ hst rfl
      (fun u hu => by simp [goto_threads, hu])
      (by simp [goto_threads]) (by simp [critical]) (by simp [shaped, loopTail])
      (by simp [slotOk]) (by simp [pending]) (by simp [waiting])
      (by simp [holding, Frame.holding]) (by simp [fronted])
  | poll_exit rest hst hret =>
    rw [hst] at hsh
    have := shaped_poll rest hsh
    subst this
    exact hinv.move_plain t _ [] _ hst rfl (fun u hu => by simp [leave_threads, hu])
      (by simp [leave_threads]) (by simp [critical]) (by simp [shaped]) (by simp [slotOk])
      (by simp [pending]) (by simp [waiting]) (by simp [holding]) (by simp [fronted])

/-- A client call on an idle thread keeps the invariant. -/
theorem Inv.call {s s2 : Sys κ α} {t : ThreadId} {k : Call κ} (hinv : Inv s)
    (h : s.call t k = some s2) : Inv s2 := by
  unfold Sys.call at h
  split at h
  · rename_i hst
    simp at h
    subst h
    exact hinv.move_plain t [] [k.frame] _ hst rfl (fun u hu => by simp [goto_threads, hu])
      (by simp [goto_threads])
      (by cases k <;> simp [critical, Call.frame, CEnsureThread.wait])
      (by cases k <;> simp [shaped, Call.frame, CEnsureThread.wait, loopTail])
      (by cases k <;> simp [slotOk, Call.frame, CEnsureThread.wait])
      (by simp [pending]) (by simp [waiting])
      (by cases k <;> simp [holding, Frame.holding, Call.frame, CEnsureThread.wait])
      (by cases k <;> simp [fronted, Call.frame, CEnsureThread.wait])
  · simp at h

/-- The invariant holds right after construction. -/
theorem Inv.init (home : ThreadId) : Inv (init home : Sys κ α) := by
  constructor <;>
    simp [EnsureThread.init, CEnsureThread.new, shaped, slotOk, critical, pending, holding,
      fronted]

/-- The invariant holds after every schedule. -/
theorem Inv.run (P : Bodies κ α) (sched : List (Action κ)) :
    ∀ s : Sys κ α, Inv s → Inv (run P s sched) := by
  induction sched with
  | nil => intro s h; exact h
  | cons a l ih =>
    intro s h
    simp only [EnsureThread.run, List.foldl_cons]
    apply ih
    cases a with
    | call t k =>
      simp only [fire]
      cases hc : s.call t k with
      | none => simpa using h
      | some s2 => simpa using h.call hc
    | step t =>
      simp only [fire]
      cases hc : EnsureThread.step P s t with
      | none => simpa using h
      | some s2 => simpa using h.step (step_sound P s s2 t hc)
/-! ## What a step can change -/

/-- No rule writes `m_id`. -/
theorem Step.m_id {P : Bodies κ α} {s s2 : Sys κ α} {t : ThreadId} (h : Step P s t s2) :
    s2.gate.m_id = s.gate.m_id := by
  cases h <;> rfl

/-- The history only grows. -/
theorem Step.trace {P : Bodies κ α} {s s2 : Sys κ α} {t : ThreadId} (h : Step P s t s2) :
    ∃ l, s2.trace = s.trace ++ l := by
  cases h <;> first | exact ⟨_, rfl⟩ | exact ⟨[], by simp [Sys.goto, Sys.leave]⟩

/-- A step changes the queue in one of three ways: not at all, by appending the
executor of the stepping thread at the back (`emplace_back` in `wait_internal`),
or by removing the front element (`pop_front` in `poll_one`). -/
theorem Step.queue {P : Bodies κ α} {s s2 : Sys κ α} {t : ThreadId} (h : Step P s t s2) :
    s2.gate.m_dqExecutors = s.gate.m_dqExecutors ∨
    ((∃ c task rest, (s.threads t).stack = .wait_internal .emplace_back c task :: rest) ∧
      s2.gate.m_dqExecutors = s.gate.m_dqExecutors ++ [t]) ∨
    ((∃ fn rest, (s.threads t).stack = .poll_one (.pop_front fn) :: rest) ∧
      ∃ fn2, s.gate.m_dqExecutors = fn2 :: s2.gate.m_dqExecutors) := by
  cases h with
  | wait_emplace_back c task rest hst => exact Or.inr (Or.inl ⟨⟨c, task, rest, hst⟩, rfl⟩)
  | poll_one_pop_front rest fn fn2 q hst hq =>
    exact Or.inr (Or.inr ⟨⟨fn, rest, hst⟩, fn2, hq⟩)
  | _ => exact Or.inl rfl

/-- A step of thread `t` changes another thread `u` only by completing the task
of `u`, and then the history records it. -/
theorem Step.other {P : Bodies κ α} {s s2 : Sys κ α} {t : ThreadId} (h : Step P s t s2)
    (u : ThreadId) (hu : u ≠ t) :
    s2.threads u = s.threads u ∨
      ∃ r l, s2.trace = s.trace ++ l ∧ Obs.completed t u r ∈ l := by
  cases h with
  | poll_one_call_done rest fn c r hst htask hb =>
    by_cases h2 : u = fn
    · subst h2
      exact Or.inr ⟨r, _, rfl, by simp⟩
    · exact Or.inl (by simp [leave_threads, set_value_threads, hu, h2])
  | poll_one_finish rest fn r hst hret =>
    by_cases h2 : u = fn
    · subst h2
      exact Or.inr ⟨r, _, rfl, by simp⟩
    · exact Or.inl (by simp [leave_threads, set_value_threads, hu, h2])
  | _ => exact Or.inl (by simp [leave_threads, goto_threads, hu])

theorem call_gate (s s2 : Sys κ α) (t : ThreadId) (k : Call κ) (h : s.call t k = some s2) :
    s2.gate = s.gate ∧ s2.trace = s.trace ∧ ∀ u, u ≠ t → s2.threads u = s.threads u := by
  unfold Sys.call at h
  split at h
  · simp at h; subst h
    exact ⟨rfl, rfl, fun u hu => by simp [goto_threads, hu]⟩
  · simp at h

theorem fire_m_id (P : Bodies κ α) (s : Sys κ α) (a : Action κ) :
    (fire P s a).gate.m_id = s.gate.m_id := by
  cases a with
  | call t k =>
    simp only [fire]
    cases hc : s.call t k with
    | none => rfl
    | some s2 => simp [(call_gate s s2 t k hc).1]
  | step t =>
    simp only [fire]
    cases hc : step P s t with
    | none => rfl
    | some s2 => simpa using (step_sound P s s2 t hc).m_id

theorem run_m_id (P : Bodies κ α) (sched : List (Action κ)) :
    ∀ s : Sys κ α, (run P s sched).gate.m_id = s.gate.m_id := by
  induction sched with
  | nil => intro s; rfl
  | cons a l ih =>
    intro s
    simp only [run, List.foldl_cons]
    exact (ih (fire P s a)).trans (fire_m_id P s a)

theorem fire_trace (P : Bodies κ α) (s : Sys κ α) (a : Action κ) :
    ∃ l, (fire P s a).trace = s.trace ++ l := by
  cases a with
  | call t k =>
    simp only [fire]
    cases hc : s.call t k with
    | none => exact ⟨[], by simp⟩
    | some s2 => exact ⟨[], by simp [(call_gate s s2 t k hc).2.1]⟩
  | step t =>
    simp only [fire]
    cases hc : step P s t with
    | none => exact ⟨[], by simp⟩
    | some s2 => simpa using (step_sound P s s2 t hc).trace

theorem run_trace (P : Bodies κ α) (sched : List (Action κ)) :
    ∀ s : Sys κ α, ∃ l, (run P s sched).trace = s.trace ++ l := by
  induction sched with
  | nil => intro s; exact ⟨[], by simp [run]⟩
  | cons a l ih =>
    intro s
    simp only [run, List.foldl_cons]
    obtain ⟨l1, h1⟩ := fire_trace P s a
    obtain ⟨l2, h2⟩ := ih (fire P s a)
    exact ⟨l1 ++ l2, by rw [show List.foldl (fire P) (fire P s a) l = run P (fire P s a) l from rfl,
      h2, h1, List.append_assoc]⟩

/-- A thread blocked in `get()` stays there until the history records that a
`poll_one` completed its task. -/
theorem blocked_until_completed (P : Bodies κ α) (B : ThreadId) (c : κ)
    (rest : List (Frame κ α)) (sched : List (Action κ)) :
    ∀ s : Sys κ α, (s.threads B).stack = .wait_internal .get c none :: rest →
      (run P s sched).threads B = s.threads B ∨
        ∃ t r l, (run P s sched).trace = s.trace ++ l ∧ Obs.completed t B r ∈ l := by
  induction sched with
  | nil => intro s _; exact Or.inl rfl
  | cons a l ih =>
    intro s hB
    simp only [run, List.foldl_cons]
    change (run P (fire P s a) l).threads B = _ ∨ ∃ t r l2, (run P (fire P s a) l).trace = _ ∧ _
    have key : (fire P s a).threads B = s.threads B ∨
        ∃ t r l1, (fire P s a).trace = s.trace ++ l1 ∧ Obs.completed t B r ∈ l1 := by
      cases a with
      | call t k =>
        simp only [fire]
        cases hc : s.call t k with
        | none => exact Or.inl rfl
        | some s2 =>
          by_cases ht : B = t
          · subst ht
            simp [Sys.call, hB] at hc
          · exact Or.inl (by simpa using (call_gate s s2 t k hc).2.2 B ht)
      | step t =>
        simp only [fire]
        cases hc : step P s t with
        | none => exact Or.inl rfl
        | some s2 =>
          by_cases ht : B = t
          · subst ht
            simp [step, hB, CEnsureThread.wait_internal] at hc
          · rcases (step_sound P s s2 t hc).other B ht with h | ⟨r, l1, h1, h2⟩
            · exact Or.inl (by simpa using h)
            · exact Or.inr ⟨t, r, l1, by simpa using h1, h2⟩
    rcases key with h | ⟨t, r, l1, h1, h2⟩
    · rcases ih (fire P s a) (by rw [h]; exact hB) with h3 | ⟨t, r, l2, h3, h4⟩
      · exact Or.inl (h3.trans h)
      · obtain ⟨l1, h1⟩ := fire_trace P s a
        exact Or.inr ⟨t, r, l1 ++ l2, by rw [h3, h1, List.append_assoc],
          List.mem_append_right _ h4⟩
    · obtain ⟨l2, h3⟩ := run_trace P l (fire P s a)
      exact Or.inr ⟨t, r, l1 ++ l2, by rw [h3, h1, List.append_assoc],
        List.mem_append_left _ h2⟩
/-! ## The properties C1 to C10 -/

/-- C4: for a gate constructed on thread `A`, after every schedule of calls and
steps of any threads (`wait`, `poll_one`, `poll`, direct calls), `get_id` returns
`A`, and `check_thread` called on thread `B` returns true exactly when `B = A`. -/
theorem C4_home_identity (P : Bodies κ α) (A B : ThreadId) (sched : List (Action κ)) :
    (run P (init A) sched).gate.get_id = A ∧
      ((run P (init A) sched).gate.check_thread B = true ↔ B = A) := by
  have h : (run P (init A) sched).gate.m_id = A := run_m_id P sched (init A)
  refine ⟨h, ?_⟩
  simp only [CEnsureThread.check_thread, CEnsureThread.get_id, h, beq_iff_eq]
  exact eq_comm

theorem poll_one_dequeue (P : Bodies κ α) (s : Sys κ α) (t fn : ThreadId) (q : List ThreadId)
    (rest : List (Frame κ α))
    (hst : (s.threads t).stack = .poll_one .test :: rest)
    (hm : s.gate.m_mxQueue = none)
    (hq : s.gate.m_dqExecutors = fn :: q) :
    runThread P t 5 s =
      (s.setGate { s.gate with m_dqExecutors := q }).goto t (.poll_one (.call fn) :: rest) := by
  simp [runThread, step, hst, hm, hq, CEnsureThread.poll_one, Sys.goto, setThread_threads]

/-- C5: `poll_one` called by thread `t` (top of its stack, anything below).  On an
empty queue its one step returns false, leaves the gate and every other thread as
they are, and records no execution.  On a queue `fn :: q`, with the mutex free,
it reaches the call of `fnExecutor` after five steps with the queue equal to `q`;
when the task of `fn` runs to an outcome `r` on `t`, the sixth step makes
`poll_one` return true, the queue is `q`, the history gains the execution of
`fn` and of no other task, the shared state of `fn` holds `r`, and no other
thread changes. -/
theorem C5_poll_one (P : Bodies κ α) (s : Sys κ α) (t : ThreadId) (rest : List (Frame κ α))
    (hst : (s.threads t).stack = .poll_one .test :: rest) :
    (s.gate.m_dqExecutors = [] →
      (runThread P t 1 s).gate = s.gate ∧
      (runThread P t 1 s).threads t = { stack := rest, ret := some (.flag false) } ∧
      (runThread P t 1 s).trace = s.trace ++ [.polled t false] ∧
      ∀ u, u ≠ t → (runThread P t 1 s).threads u = s.threads u) ∧
    (∀ fn q, s.gate.m_mxQueue = none → s.gate.m_dqExecutors = fn :: q →
      ((runThread P t 5 s).gate = { s.gate with m_dqExecutors := q } ∧
        (runThread P t 5 s).threads t =
          { stack := .poll_one (.call fn) :: rest, ret := none } ∧
        (runThread P t 5 s).trace = s.trace) ∧
      ∀ c r, s.task fn = some (c, none) →
        (∀ g : CEnsureThread, g.m_id = s.gate.m_id → P c g t = .done r) →
        (runThread P t 6 s).gate = { s.gate with m_dqExecutors := q } ∧
        (runThread P t 6 s).threads t = { stack := rest, ret := some (.flag true) } ∧
        (runThread P t 6 s).trace =
          s.trace ++ [.started t fn, .completed t fn r, .polled t true] ∧
        (runThread P t 6 s).threads fn = (s.threads fn).set_value r ∧
        ∀ u, u ≠ t → u ≠ fn → (runThread P t 6 s).threads u = s.threads u) := by
  refine ⟨?_, ?_⟩
  · intro hq
    rw [runThread_some P t 0 _ _ (poll_one_empty_run P s t rest hst hq)]
    refine ⟨rfl, by simp [runThread, leave_threads], rfl, ?_⟩
    intro u hu
    simp [runThread, leave_threads, hu]
  · intro fn q hm hq
    refine ⟨?_, ?_⟩
    · rw [poll_one_dequeue P s t fn q rest hst hm hq]
      exact ⟨rfl, by simp [goto_threads], rfl⟩
    · intro c r htask hbody
      obtain ⟨pc, rest2, hfn⟩ := task_stack s fn c none htask
      have hne : fn ≠ t := by
        rintro rfl
        rw [hst] at hfn; simp at hfn
      rw [poll_one_run P s t fn q rest c r hst hm hq htask hbody]
      refine ⟨rfl, by simp [leave_threads], rfl, by simp [leave_threads, set_value_threads, hne],
        ?_⟩
      intro u h1 h2
      simp [leave_threads, set_value_threads, h1, h2]

/-- Witness of C5: `TEST(wait, direct)` with thread 1 blocked in `wait` and the
main thread 0 calling `poll_one`. -/
theorem C5_poll_one_witness :
    ((fire directBodies directWaiting (.call 0 .poll_one)).threads 0).stack =
        [.poll_one .test] ∧
      (fire directBodies directWaiting (.call 0 .poll_one)).gate.m_dqExecutors = [1] ∧
      (runThread directBodies 0 6
        (fire directBodies directWaiting (.call 0 .poll_one))).gate.m_dqExecutors = [] ∧
      (runThread directBodies 0 6
        (fire directBodies directWaiting (.call 0 .poll_one))).threads 0 =
          { stack := [], ret := some (.flag true) } ∧
      (runThread directBodies 0 6
        (fire directBodies directWaiting (.call 0 .poll_one))).trace =
          [.started 0 1, .completed 0 1 (.value true), .polled 0 true] := by
  have hst : ((fire directBodies directWaiting (.call 0 .poll_one)).threads 0).stack =
      [.poll_one .test] := by decide
  have hq : (fire directBodies directWaiting (.call 0 .poll_one)).gate.m_dqExecutors = [1] := by
    decide
  have hm : (fire directBodies directWaiting (.call 0 .poll_one)).gate.m_mxQueue = none := by
    decide
  have htask : (fire directBodies directWaiting (.call 0 .poll_one)).task 1 =
      some (⟨0⟩, none) := by decide
  have h := ((C5_poll_one directBodies _ 0 [] hst).2 1 [] hm hq).2 ⟨0⟩ (.value true) htask
    (fun g hg => by
      have : g.m_id = 0 := hg
      simp [directBodies, STest.IsSame, this])
  refine ⟨hst, hq, ?_, h.2.1, ?_⟩
  · rw [h.1]
  · rw [h.2.2.1]; rfl
theorem runThread_idle (P : Bodies κ α) (t : ThreadId) (n : Nat) (s : Sys κ α)
    (h : (s.threads t).stack = []) : runThread P t n s = s :=
  runThread_none P t n s (by simp [step, h])

theorem runThread_ge (P : Bodies κ α) (t : ThreadId) (m n : Nat) (s : Sys κ α)
    (hmn : m ≤ n) (h : ((runThread P t m s).threads t).stack = []) :
    runThread P t n s = runThread P t m s := by
  obtain ⟨k, rfl⟩ := Nat.exists_eq_add_of_le hmn
  rw [runThread_add, runThread_idle P t k _ h]

theorem fire_call_idle (P : Bodies κ α) (s : Sys κ α) (t : ThreadId) (k : Call κ)
    (h : (s.threads t).stack = []) : fire P s (.call t k) = s.goto t [k.frame] := by
  simp [fire, Sys.call, h]

theorem executed_append (a b : List (Obs α)) : executed (a ++ b) = executed a ++ executed b := by
  simp [executed]

theorem polls_append (a b : List (Obs α)) : polls (a ++ b) = polls a ++ polls b := by
  simp [polls]

theorem executed_drain (t : ThreadId) (r : ThreadId → Outcome α) (q : List ThreadId) :
    executed (q.flatMap (fun fn => [Obs.started t fn, .completed t fn (r fn), .polled t true]))
      = q := by
  induction q with
  | nil => rfl
  | cons a l ih =>
    rw [List.flatMap_cons, executed_append, ih]
    rfl

theorem polls_drain (t : ThreadId) (r : ThreadId → Outcome α) (q : List ThreadId) :
    polls (q.flatMap (fun fn => [Obs.started t fn, .completed t fn (r fn), .polled t true]))
      = List.replicate q.length true := by
  induction q with
  | nil => rfl
  | cons a l ih =>
    rw [List.flatMap_cons, polls_append, ih]
    rfl

/-- The drain loop called by an idle thread on a quiet gate. -/
theorem poll_call_run (P : Bodies κ α) (s : Sys κ α) (t : ThreadId) (r : ThreadId → Outcome α)
    (q : List ThreadId) (fuel : Nat)
    (hidle : (s.threads t).stack = [])
    (hm : s.gate.m_mxQueue = none)
    (hq : s.gate.m_dqExecutors = q)
    (hnd : q.Nodup)
    (hall : ∀ fn ∈ q, ∃ c, s.task fn = some (c, none) ∧
      ∀ g : CEnsureThread, g.m_id = s.gate.m_id → P c g t = .done (r fn))
    (hfuel : 7 * q.length + 3 ≤ fuel) :
    (runThread P t fuel (fire P s (.call t .poll))).gate = { s.gate with m_dqExecutors := [] } ∧
    (runThread P t fuel (fire P s (.call t .poll))).trace =
      s.trace ++ q.flatMap (fun fn => [.started t fn, .completed t fn (r fn), .polled t true])
        ++ [.polled t false] ∧
    (runThread P t fuel (fire P s (.call t .poll))).threads t =
      { stack := [], ret := some .void } ∧
    ∀ u, u ≠ t → (runThread P t fuel (fire P s (.call t .poll))).threads u =
      if u ∈ q then (s.threads u).set_value (r u) else s.threads u := by
  rw [fire_call_idle P s t .poll hidle]
  have hne : ∀ fn ∈ q, fn ≠ t := by
    rintro fn hfn rfl
    obtain ⟨c, htask, _⟩ := hall fn hfn
    obtain ⟨pc, rest2, h2⟩ := task_stack s fn c none htask
    rw [hidle] at h2; simp at h2
  obtain ⟨g1, g2, g3, g4⟩ := poll_run P t r [] q (s.goto t [Call.frame .poll])
    (by simp [goto_threads, Call.frame]) (by simp [goto_threads]) (by simpa using hm)
    (by simpa using hq) hnd (by
      intro fn hfn
      obtain ⟨c, htask, hb⟩ := hall fn hfn
      exact ⟨c, by simp [Sys.goto, task_setThread, hne fn hfn, htask], by simpa using hb⟩)
  rw [runThread_ge P t (7 * q.length + 3) fuel _ hfuel (by rw [g3])]
  refine ⟨by simpa using g1, by simpa using g2, g3, ?_⟩
  intro u hu
  rw [g4 u hu]
  simp [goto_threads, hu]

/-- C7: `poll()` called by an idle thread `t` on a gate whose mutex is free and whose
queue holds the `n` tasks `q`, each of which runs to an outcome on `t` (so nothing
is enqueued meanwhile): with any fuel of at least `7 * n + 3` steps the call has
returned (`void`, empty stack), the queue is empty, the calls of `poll_one` it
made returned `true` exactly `n` times and then `false`, and the executions it
started are exactly the tasks of `q`, each once. -/
theorem C7_poll_drains (P : Bodies κ α) (s : Sys κ α) (t : ThreadId)
    (r : ThreadId → Outcome α) (q : List ThreadId) (fuel : Nat)
    (hidle : (s.threads t).stack = [])
    (hm : s.gate.m_mxQueue = none)
    (hq : s.gate.m_dqExecutors = q)
    (hnd : q.Nodup)
    (hall : ∀ fn ∈ q, ∃ c, s.task fn = some (c, none) ∧
      ∀ g : CEnsureThread, g.m_id = s.gate.m_id → P c g t = .done (r fn))
    (hfuel : 7 * q.length + 3 ≤ fuel) :
    (runThread P t fuel (fire P s (.call t .poll))).threads t =
      { stack := [], ret := some .void } ∧
    (runThread P t fuel (fire P s (.call t .poll))).gate.m_dqExecutors = [] ∧
    polls (runThread P t fuel (fire P s (.call t .poll))).trace =
      polls s.trace ++ List.replicate q.length true ++ [false] ∧
    executed (runThread P t fuel (fire P s (.call t .poll))).trace = executed s.trace ++ q ∧
    ∀ fn ∈ q, (q.count fn = 1 ∧
      (runThread P t fuel (fire P s (.call t .poll))).threads fn =
        (s.threads fn).set_value (r fn)) := by
  obtain ⟨g1, g2, g3, g4⟩ := poll_call_run P s t r q fuel hidle hm hq hnd hall hfuel
  refine ⟨g3, by rw [g1], ?_, ?_, ?_⟩
  · rw [g2, polls_append, polls_append, polls_drain]
    rfl
  · rw [g2, executed_append, executed_append, executed_drain]
    simp [executed]
  · intro fn hfn
    have hne : fn ≠ t := by
      rintro rfl
      obtain ⟨c, htask, _⟩ := hall fn hfn
      obtain ⟨pc, rest2, h2⟩ := task_stack s fn c none htask
      rw [hidle] at h2; simp at h2
    refine ⟨List.count_eq_one_of_mem hnd hfn, ?_⟩
    rw [g4 fn hne]
    simp [hfn]

/-- Witness of C7: the main thread of `TEST(wait, direct)` drains a queue of two
tasks. -/
theorem C7_poll_drains_witness :
    (directTwoWaiting.threads 0).stack = [] ∧
      directTwoWaiting.gate.m_dqExecutors = [2, 1] ∧
      (runThread directBodies 0 17 (fire directBodies directTwoWaiting (.call 0 .poll))).threads 0
        = { stack := [], ret := some .void } ∧
      (runThread directBodies 0 17
        (fire directBodies directTwoWaiting (.call 0 .poll))).gate.m_dqExecutors = [] ∧
      polls (runThread directBodies 0 17
        (fire directBodies directTwoWaiting (.call 0 .poll))).trace = [true, true, false] ∧
      executed (runThread directBodies 0 17
        (fire directBodies directTwoWaiting (.call 0 .poll))).trace = [2, 1] := by
  have h := C7_poll_drains directBodies directTwoWaiting 0 (fun _ => .value true) [2, 1] 17
    (by decide) (by decide) (by decide) (by decide)
    (by
      intro fn hfn
      refine ⟨⟨0⟩, ?_, ?_⟩
      · simp at hfn
        rcases hfn with rfl | rfl <;> decide
      · intro g hg
        have : g.m_id = 0 := hg
        simp [directBodies, STest.IsSame, this])
    (by decide)
  exact ⟨by decide, by decide, h.1, h.2.1, h.2.2.1, h.2.2.2.1⟩

/-- C6: strict FIFO.  Every step of any thread in any state leaves the queue
alone, or appends the executor of the stepping thread at the back (the
`emplace_back` of `wait_internal`), or removes the front element (the `pop_front`
of `poll_one`).  And `poll()` called by an idle thread `t` on a quiet gate with
queue `q`, whose tasks run to an outcome on `t`, executes them in the order of
`q`: the history it adds is, task after task in queue order, start, completion,
return of `poll_one`; so for `Ti` before `Tj` in the queue the completion of `Ti`
precedes the start of `Tj`, which does not occur earlier. -/
theorem C6_fifo (P : Bodies κ α) (s : Sys κ α) (t : ThreadId)
    (r : ThreadId → Outcome α) (q : List ThreadId) (fuel : Nat)
    (hidle : (s.threads t).stack = [])
    (hm : s.gate.m_mxQueue = none)
    (hq : s.gate.m_dqExecutors = q)
    (hnd : q.Nodup)
    (hall : ∀ fn ∈ q, ∃ c, s.task fn = some (c, none) ∧
      ∀ g : CEnsureThread, g.m_id = s.gate.m_id → P c g t = .done (r fn))
    (hfuel : 7 * q.length + 3 ≤ fuel) :
    (∀ (s0 s1 : Sys κ α) (u : ThreadId), step P s0 u = some s1 →
      s1.gate.m_dqExecutors = s0.gate.m_dqExecutors ∨
      ((∃ c task rest, (s0.threads u).stack = .wait_internal .emplace_back c task :: rest) ∧
        s1.gate.m_dqExecutors = s0.gate.m_dqExecutors ++ [u]) ∨
      ((∃ fn rest, (s0.threads u).stack = .poll_one (.pop_front fn) :: rest) ∧
        ∃ fn2, s0.gate.m_dqExecutors = fn2 :: s1.gate.m_dqExecutors)) ∧
    (runThread P t fuel (fire P s (.call t .poll))).trace =
      s.trace ++ q.flatMap (fun fn => [.started t fn, .completed t fn (r fn), .polled t true])
        ++ [.polled t false] ∧
    (∀ l1 Ti l2 Tj l3, q = l1 ++ Ti :: (l2 ++ Tj :: l3) →
      ∃ A B D, (runThread P t fuel (fire P s (.call t .poll))).trace =
          s.trace ++ (A ++ .completed t Ti (r Ti) :: (B ++ .started t Tj :: D)) ∧
        ∀ e ∈ A, e ≠ Obs.started t Tj) := by
  obtain ⟨_, g2, _, _⟩ := poll_call_run P s t r q fuel hidle hm hq hnd hall hfuel
  refine ⟨fun s0 s1 u h => (step_sound P s0 s1 u h).queue, g2, ?_⟩
  intro l1 Ti l2 Tj l3 hdec
  refine ⟨l1.flatMap (fun fn => [.started t fn, .completed t fn (r fn), .polled t true]) ++
      [.started t Ti],
    .polled t true :: l2.flatMap (fun fn => [.started t fn, .completed t fn (r fn),
      .polled t true]),
    [.completed t Tj (r Tj), .polled t true] ++
      l3.flatMap (fun fn => [.started t fn, .completed t fn (r fn), .polled t true]) ++
        [.polled t false], ?_, ?_⟩
  · rw [g2, hdec]
    simp [List.flatMap_append, List.flatMap_cons]
  · intro e he
    rw [hdec] at hnd
    have hnd2 := List.nodup_append.mp hnd
    simp only [List.mem_append, List.mem_flatMap, List.mem_singleton] at he
    rintro rfl
    rcases he with ⟨a, ha, hmem⟩ | heq
    · simp at hmem
      subst hmem
      exact hnd2.2.2 ha (by simp)
    · simp at heq
      subst heq
      have := (List.nodup_cons.mp hnd2.2.1).1
      simp at this

/-- Witness of C6: two tasks queued as `[2, 1]` are executed by `poll()` on the main
thread in that order. -/
theorem C6_fifo_witness :
    (directTwoWaiting.threads 0).stack = [] ∧
      directTwoWaiting.gate.m_dqExecutors = [2, 1] ∧
      (runThread directBodies 0 17 (fire directBodies directTwoWaiting (.call 0 .poll))).trace =
        [.started 0 2, .completed 0 2 (.value true), .polled 0 true,
          .started 0 1, .completed 0 1 (.value true), .polled 0 true, .polled 0 false] := by
  have h := C6_fifo directBodies directTwoWaiting 0 (fun _ => .value true) [2, 1] 17
    (by decide) (by decide) (by decide) (by decide)
    (by
      intro fn hfn
      refine ⟨⟨0⟩, ?_, ?_⟩
      · simp at hfn
        rcases hfn with rfl | rfl <;> decide
      · intro g hg
        have : g.m_id = 0 := hg
        simp [directBodies, STest.IsSame, this])
    (by decide)
  refine ⟨by decide, by decide, ?_⟩
  rw [h.2.1]
  rfl

/-- A thread that enters `wait_internal` on a quiet gate publishes its task and
blocks; a drain by another thread executes the task and the first thread returns
what the bound call produced on the draining thread. -/
theorem wait_poll_roundtrip (P : Bodies κ α) (s : Sys κ α) (A B : ThreadId) (c : κ)
    (rc : Outcome α) (r : ThreadId → Outcome α) (q : List ThreadId)
    (restB : List (Frame κ α)) (fuel : Nat)
    (hAB : A ≠ B)
    (hA : (s.threads A).stack = [])
    (hB : (s.threads B).stack = .wait_internal .lock c none :: restB)
    (hm : s.gate.m_mxQueue = none)
    (hq : s.gate.m_dqExecutors = q)
    (hnd : q.Nodup)
    (hBq : B ∉ q)
    (hall : ∀ fn ∈ q, ∃ c2, s.task fn = some (c2, none) ∧
      ∀ g : CEnsureThread, g.m_id = s.gate.m_id → P c2 g A = .done (r fn))
    (hc : ∀ g : CEnsureThread, g.m_id = s.gate.m_id → P c g A = .done rc)
    (hfuel : 7 * (q.length + 1) + 3 ≤ fuel) :
    runThread P B 3 s =
      (s.setGate { s.gate with m_dqExecutors := q ++ [B] }).goto B
        (.wait_internal .get c none :: restB) ∧
    step P (runThread P B 3 s) B = none ∧
    (runThread P A fuel (fire P (runThread P B 3 s) (.call A .poll))).gate.m_dqExecutors = [] ∧
    (runThread P A fuel (fire P (runThread P B 3 s) (.call A .poll))).trace =
      s.trace ++ (q ++ [B]).flatMap (fun fn =>
        [.started A fn, .completed A fn (if fn = B then rc else r fn), .polled A true])
        ++ [.polled A false] ∧
    (runThread P A fuel (fire P (runThread P B 3 s) (.call A .poll))).threads B =
      { stack := .wait_internal .get c (some rc) :: restB, ret := none } ∧
    step P (runThread P A fuel (fire P (runThread P B 3 s) (.call A .poll))) B =
      some ((runThread P A fuel (fire P (runThread P B 3 s) (.call A .poll))).leave B restB
        (.outcome rc)) := by
  have h1 := wait_internal_run P s B restB c hB hm
  rw [hq] at h1
  have hB1 : ((runThread P B 3 s).threads B) =
      { stack := .wait_internal .get c none :: restB, ret := none } := by
    rw [h1]; simp [goto_threads]
  have hblock : step P (runThread P B 3 s) B = none :=
    wait_internal_blocked P _ B restB c (by rw [hB1])
  have hother : ∀ u, u ≠ B → (runThread P B 3 s).threads u = s.threads u := by
    intro u hu
    rw [h1]; simp [goto_threads, hu]
  obtain ⟨g1, g2, g3, g4⟩ := poll_call_run P (runThread P B 3 s) A
    (fun fn => if fn = B then rc else r fn) (q ++ [B]) fuel
    (by rw [hother A hAB]; exact hA) (by rw [h1]; simpa using hm) (by rw [h1]; simp)
    (by
      rw [List.nodup_append]
      refine ⟨hnd, List.nodup_singleton _, ?_⟩
      intro a ha hb
      simp at hb
      subst hb
      exact hBq ha)
    (by
      intro fn hfn
      simp at hfn
      rcases hfn with hfn | rfl
      · obtain ⟨c2, htask, hb⟩ := hall fn hfn
        have hne : fn ≠ B := by
          rintro rfl
          exact hBq hfn
        refine ⟨c2, ?_, ?_⟩
        · simpa [Sys.task, hother fn hne] using htask
        · intro g hg
          rw [h1] at hg
          simpa [hne] using hb g hg
      · refine ⟨c, by simp [Sys.task, hB1], ?_⟩
        intro g hg
        rw [h1] at hg
        simpa using hc g hg)
    (by simpa using hfuel)
  have hBfin : (runThread P A fuel (fire P (runThread P B 3 s) (.call A .poll))).threads B =
      { stack := .wait_internal .get c (some rc) :: restB, ret := none } := by
    rw [g4 B (Ne.symm hAB), hB1]
    simp [Thread.set_value]
  refine ⟨h1, hblock, by rw [g1], ?_, hBfin, ?_⟩
  · rw [g2, h1]; simp
  · exact wait_internal_return P _ B restB c rc (by rw [hBfin])
/-- C1: on a quiet gate (mutex free, queue `q` of tasks that run to an outcome on
`A`), thread `B`, idle and different from the idle thread `A`, calls `wait(c)`.
After its three steps the queue is `q` with exactly the one executor of `B`
appended, and `B` is blocked: it cannot step, and under every schedule from there
its state is unchanged unless the history has gained the completion of its task
by a `poll_one`.  When `A` then calls `poll()`, the task of `B` is executed on
`A`, and the next step of `B` returns from `wait` exactly the outcome `rc` that
the bound call has on thread `A`. -/
theorem C1_wait_runs_on_polling_thread (P : Bodies κ α) (s : Sys κ α) (A B : ThreadId) (c : κ)
    (rc : Outcome α) (r : ThreadId → Outcome α) (q : List ThreadId) (fuel : Nat)
    (hAB : A ≠ B)
    (hA : (s.threads A).stack = [])
    (hB : (s.threads B).stack = [])
    (hm : s.gate.m_mxQueue = none)
    (hq : s.gate.m_dqExecutors = q)
    (hnd : q.Nodup)
    (hall : ∀ fn ∈ q, ∃ c2, s.task fn = some (c2, none) ∧
      ∀ g : CEnsureThread, g.m_id = s.gate.m_id → P c2 g A = .done (r fn))
    (hc : ∀ g : CEnsureThread, g.m_id = s.gate.m_id → P c g A = .done rc)
    (hfuel : 7 * (q.length + 1) + 3 ≤ fuel) :
    (runThread P B 3 (fire P s (.call B (.wait c)))).gate.m_dqExecutors = q ++ [B] ∧
    step P (runThread P B 3 (fire P s (.call B (.wait c)))) B = none ∧
    (∀ sched : List (Action κ),
      (run P (runThread P B 3 (fire P s (.call B (.wait c)))) sched).threads B =
          { stack := [.wait_internal .get c none], ret := none } ∨
        ∃ t x l, (run P (runThread P B 3 (fire P s (.call B (.wait c)))) sched).trace =
          (runThread P B 3 (fire P s (.call B (.wait c)))).trace ++ l ∧
            Obs.completed t B x ∈ l) ∧
    Obs.completed A B rc ∈ (runThread P A fuel
      (fire P (runThread P B 3 (fire P s (.call B (.wait c)))) (.call A .poll))).trace ∧
    (runThread P B 1 (runThread P A fuel
      (fire P (runThread P B 3 (fire P s (.call B (.wait c)))) (.call A .poll)))).threads B =
        { stack := [], ret := some (.outcome rc) } := by
  have hBq : B ∉ q := by
    intro hmem
    obtain ⟨c2, htask, _⟩ := hall B hmem
    obtain ⟨pc, rest2, h2⟩ := task_stack s B c2 none htask
    rw [hB] at h2; simp at h2
  have h0 : fire P s (.call B (.wait c)) = s.goto B [.wait_internal .lock c none] :=
    fire_call_idle P s B (.wait c) hB
  obtain ⟨g1, g2, g3, g4, g5, g6⟩ := wait_poll_roundtrip P (fire P s (.call B (.wait c))) A B c
    rc r q [] fuel hAB (by rw [h0]; simpa [goto_threads, hAB] using hA)
    (by rw [h0]; simp [goto_threads]) (by rw [h0]; simpa using hm) (by rw [h0]; simpa using hq)
    hnd hBq
    (by
      intro fn hfn
      obtain ⟨c2, htask, hb⟩ := hall fn hfn
      have hne : fn ≠ B := by
        rintro rfl
        exact hBq hfn
      refine ⟨c2, ?_, ?_⟩
      · rw [h0]; simp [Sys.goto, task_setThread, hne, htask]
      · rw [h0]; simpa using hb)
    (by rw [h0]; simpa using hc) hfuel
  have hB1 : (runThread P B 3 (fire P s (.call B (.wait c)))).threads B =
      { stack := [.wait_internal .get c none], ret := none } := by
    rw [g1]; simp [goto_threads]
  refine ⟨by rw [g1]; rfl, g2, ?_, ?_, ?_⟩
  · intro sched
    rcases blocked_until_completed P B c [] sched _ (by rw [hB1]) with h | h
    · exact Or.inl (h.trans hB1)
    · exact Or.inr h
  · rw [g4]
    simp
  · rw [runThread_some P B 0 _ _ g6]
    simp [runThread, leave_threads]

/-- Witness of C1, `TEST(wait, direct)`: `wait(&threadChecker, &STest::IsSame)` from
thread 1 returns true, the value of `IsSame` on the main thread 0, although
`IsSame` called on thread 1 returns false. -/
theorem C1_wait_runs_on_polling_thread_witness :
    (runThread directBodies 1 1 (runThread directBodies 0 10
      (fire directBodies (runThread directBodies 1 3
        (fire directBodies (init 0) (.call 1 (.wait ⟨0⟩)))) (.call 0 .poll)))).threads 1 =
        { stack := [], ret := some (.outcome (.value true)) } ∧
      (runThread directBodies 1 1
        (fire directBodies (init 0) (.call 1 (.invoke ⟨0⟩)))).threads 1 =
        { stack := [], ret := some (.outcome (.value false)) } := by
  have h := C1_wait_runs_on_polling_thread directBodies (init 0) 0 1 ⟨0⟩ (.value true)
    (fun _ => .value true) [] 10 (by decide) (by decide) (by decide) (by decide) (by decide)
    (by decide) (by simp)
    (fun g hg => by
      have : g.m_id = 0 := hg
      simp [directBodies, STest.IsSame, this])
    (by decide)
  exact ⟨h.2.2.2.2, by decide⟩

theorem invoke_done_step (P : Bodies κ α) (s : Sys κ α) (t : ThreadId) (c : κ)
    (rest : List (Frame κ α)) (r : Outcome α)
    (hst : (s.threads t).stack = .invoke c :: rest) (hb : P c s.gate t = .done r) :
    step P s t = some (s.leave t rest (.outcome r)) := by
  simp [step, hst, invoke, hb]

theorem invoke_wait_step (P : Bodies κ α) (s : Sys κ α) (t : ThreadId) (c c2 : κ)
    (rest : List (Frame κ α))
    (hst : (s.threads t).stack = .invoke c :: rest) (hb : P c s.gate t = .wait c2) :
    step P s t = some (s.goto t (.wait_internal .lock c2 none :: rest)) := by
  simp [step, hst, invoke, hb, CEnsureThread.wait]

theorem toInt_of_range (x : Int) (h1 : -2147483648 ≤ x) (h2 : x < 2147483648) : toInt x = x := by
  unfold toInt
  omega

theorem macroBodies_home (c : WorkCall) (g : CEnsureThread) (A : ThreadId) (h : g.m_id = A) :
    macroBodies c g A = .done (.value (toInt (c.a + c.b))) := by
  simp [macroBodies, STest.Work, ENSURE_THREAD, CEnsureThread.check_thread,
    CEnsureThread.get_id, h]

theorem macroBodies_other (c : WorkCall) (g : CEnsureThread) (B : ThreadId) (h : g.m_id ≠ B) :
    macroBodies c g B = .wait c := by
  simp [macroBodies, STest.Work, ENSURE_THREAD, CEnsureThread.check_thread,
    CEnsureThread.get_id, h]

/-- C3: the method `STest::Work`, whose first statement is
`ENSURE_THREAD(*et, &STest::Work, et, a, b)` and whose remaining body returns
`a + b`, on a quiet gate with home thread `A`.  Called on `A` it returns `a + b`
in its one step, and the gate, the history and the other threads are as before:
nothing is enqueued.  On a thread `B` other than `A` the call is the redirection
`return wait(this, &STest::Work, et, a, b)`: after four steps the queue has
gained the one executor of `B` and `B` is blocked without a result.  Once `A`
has called `poll()`, the call re-entered on `A` has completed with `a + b`, and
the next step of `B` returns `a + b`: the call re-entered on `A` took the inline
path.  Here `a + b` is the `int` sum, equal to the sum of the integers when that
is in the range of `int`. -/
theorem C3_ensure_thread_macro (obj : STest) (a b : Int) (s : Sys WorkCall Int) (A B : ThreadId)
    (r : ThreadId → Outcome Int) (q : List ThreadId) (fuel : Nat)
    (hhome : s.gate.m_id = A)
    (hAB : A ≠ B)
    (hA : (s.threads A).stack = [])
    (hB : (s.threads B).stack = [])
    (hm : s.gate.m_mxQueue = none)
    (hq : s.gate.m_dqExecutors = q)
    (hnd : q.Nodup)
    (hall : ∀ fn ∈ q, ∃ c2, s.task fn = some (c2, none) ∧
      ∀ g : CEnsureThread, g.m_id = s.gate.m_id → macroBodies c2 g A = .done (r fn))
    (hfuel : 7 * (q.length + 1) + 3 ≤ fuel) :
    runThread macroBodies A 1 (fire macroBodies s (.call A (.invoke ⟨obj, a, b⟩))) =
      s.leave A [] (.outcome (.value (toInt (a + b)))) ∧
    obj.Work s.gate a b A = .done (.value (toInt (a + b))) ∧
    obj.Work s.gate a b B = .wait ⟨obj, a, b⟩ ∧
    (runThread macroBodies B 4
      (fire macroBodies s (.call B (.invoke ⟨obj, a, b⟩)))).gate.m_dqExecutors = q ++ [B] ∧
    (runThread macroBodies B 4 (fire macroBodies s (.call B (.invoke ⟨obj, a, b⟩)))).threads B =
      { stack := [.wait_internal .get ⟨obj, a, b⟩ none], ret := none } ∧
    step macroBodies
      (runThread macroBodies B 4 (fire macroBodies s (.call B (.invoke ⟨obj, a, b⟩)))) B = none ∧
    Obs.completed A B (.value (toInt (a + b))) ∈ (runThread macroBodies A fuel
      (fire macroBodies (runThread macroBodies B 4
        (fire macroBodies s (.call B (.invoke ⟨obj, a, b⟩)))) (.call A .poll))).trace ∧
    (runThread macroBodies B 1 (runThread macroBodies A fuel
      (fire macroBodies (runThread macroBodies B 4
        (fire macroBodies s (.call B (.invoke ⟨obj, a, b⟩)))) (.call A .poll)))).threads B =
        { stack := [], ret := some (.outcome (.value (toInt (a + b)))) } ∧
    (-2147483648 ≤ a + b → a + b < 2147483648 → toInt (a + b) = a + b) := by
  have hBq : B ∉ q := by
    intro hmem
    obtain ⟨c2, htask, _⟩ := hall B hmem
    obtain ⟨pc, rest2, h2⟩ := task_stack s B c2 none htask
    rw [hB] at h2; simp at h2
  have hAi : fire macroBodies s (.call A (.invoke ⟨obj, a, b⟩)) =
      s.goto A [.invoke ⟨obj, a, b⟩] := fire_call_idle macroBodies s A _ hA
  have hBi : fire macroBodies s (.call B (.invoke ⟨obj, a, b⟩)) =
      s.goto B [.invoke ⟨obj, a, b⟩] := fire_call_idle macroBodies s B _ hB
  have hBne : s.gate.m_id ≠ B := by rw [hhome]; exact hAB
  have hstepB : step macroBodies (s.goto B [.invoke ⟨obj, a, b⟩]) B =
      some (s.goto B [.wait_internal .lock ⟨obj, a, b⟩ none]) := by
    rw [invoke_wait_step macroBodies _ B ⟨obj, a, b⟩ ⟨obj, a, b⟩ [] (by simp [goto_threads])
      (macroBodies_other _ _ _ (by simpa using hBne))]
    simp [Sys.goto]
  have hsplit : runThread macroBodies B 4 (fire macroBodies s (.call B (.invoke ⟨obj, a, b⟩))) =
      runThread macroBodies B 3 (s.goto B [.wait_internal .lock ⟨obj, a, b⟩ none]) := by
    rw [hBi, runThread_some macroBodies B 3 _ _ hstepB]
  obtain ⟨g1, g2, g3, g4, g5, g6⟩ := wait_poll_roundtrip macroBodies
    (s.goto B [.wait_internal .lock ⟨obj, a, b⟩ none]) A B ⟨obj, a, b⟩
    (.value (toInt (a + b))) r q [] fuel hAB (by simpa [goto_threads, hAB] using hA)
    (by simp [goto_threads]) (by simpa using hm) (by simpa using hq)
    hnd hBq
    (by
      intro fn hfn
      obtain ⟨c2, htask, hb⟩ := hall fn hfn
      have hne : fn ≠ B := by
        rintro rfl
        exact hBq hfn
      refine ⟨c2, ?_, ?_⟩
      · simp [Sys.goto, task_setThread, hne, htask]
      · simpa using hb)
    (by
      intro g hg
      exact macroBodies_home _ g A (by rw [hg]; simpa using hhome)) hfuel
  rw [hsplit]
  refine ⟨?_, ?_, ?_, by rw [g1]; rfl, by rw [g1]; simp [goto_threads], g2, ?_, ?_, ?_⟩
  · rw [hAi]
    have : step macroBodies (s.goto A [.invoke ⟨obj, a, b⟩]) A =
        some (s.leave A [] (.outcome (.value (toInt (a + b))))) := by
      rw [invoke_done_step macroBodies _ A ⟨obj, a, b⟩ [] _ (by simp [goto_threads])
        (macroBodies_home _ _ _ (by simpa using hhome))]
      simp [Sys.goto, Sys.leave]
    rw [runThread_some macroBodies A 0 _ _ this]
    rfl
  · simpa [macroBodies] using macroBodies_home ⟨obj, a, b⟩ s.gate A hhome
  · simpa [macroBodies] using macroBodies_other ⟨obj, a, b⟩ s.gate B hBne
  · rw [g4]
    simp
  · rw [runThread_some macroBodies B 0 _ _ g6]
    simp [runThread, leave_threads]
  · exact toInt_of_range (a + b)

/-- Witness of C3, `TEST(wait, macro)`: `Work(&et, 1, 2)` on the main thread 0
returns 3 with the queue left empty, and `Work(&et, 4, 5)` on thread 1 returns 9
after the main thread has polled. -/
theorem C3_ensure_thread_macro_witness :
    (runThread macroBodies 0 1
      (fire macroBodies (init 0) (.call 0 (.invoke ⟨⟨0⟩, 1, 2⟩)))).threads 0 =
        { stack := [], ret := some (.outcome (.value 3)) } ∧
      (runThread macroBodies 0 1
        (fire macroBodies (init 0) (.call 0 (.invoke ⟨⟨0⟩, 1, 2⟩)))).gate.m_dqExecutors = [] ∧
      (runThread macroBodies 1 1 (runThread macroBodies 0 10
        (fire macroBodies (runThread macroBodies 1 4
          (fire macroBodies (init 0) (.call 1 (.invoke ⟨⟨0⟩, 4, 5⟩)))) (.call 0 .poll)))).threads 1
        = { stack := [], ret := some (.outcome (.value 9)) } := by
  have h12 := C3_ensure_thread_macro ⟨0⟩ 1 2 (init 0) 0 1 (fun _ => .value 0) [] 10 rfl
    (by decide) (by decide) (by decide) (by decide) (by decide) (by decide) (by simp)
    (by decide)
  have h45 := C3_ensure_thread_macro ⟨0⟩ 4 5 (init 0) 0 1 (fun _ => .value 0) [] 10 rfl
    (by decide) (by decide) (by decide) (by decide) (by decide) (by decide) (by simp)
    (by decide)
  refine ⟨?_, ?_, ?_⟩
  · rw [h12.1]
    simp [leave_threads, toInt]
  · rw [h12.1]
    rfl
  · rw [h45.2.2.2.2.2.2.2.1]
    simp [toInt]

/-- C8: thread `B` is blocked in `wait(c)` with its task at the front of the queue,
and thread `t` calls `poll_one` with the mutex free.  If the bound call fails with
error `e` on `t`, then `poll_one` does not raise: it returns `true`; the history
gains one completion of the task, with outcome `raised e`; the shared state of the
task holds `raised e`; and the step of `B` that follows makes `wait` raise `e`.
With any outcome `x` in place of the failure, `wait` delivers exactly `x`, and the
history gains exactly one completion.  And a method whose first statement is
`ENSURE_THREAD` and whose body fails with `e`, called on the home thread, hands
`e` to its caller in its one step, the gate untouched. -/
theorem C8_failure_propagates (P : Bodies κ α) (s : Sys κ α) (t B : ThreadId) (c : κ) (e : Exn)
    (rest restB : List (Frame κ α)) (q : List ThreadId)
    (hst : (s.threads t).stack = .poll_one .test :: rest)
    (hm : s.gate.m_mxQueue = none)
    (hq : s.gate.m_dqExecutors = B :: q)
    (hB : (s.threads B).stack = .wait_internal .get c none :: restB)
    (hbody : ∀ g : CEnsureThread, g.m_id = s.gate.m_id → P c g t = .done (.raised e)) :
    (runThread P t 6 s).threads t = { stack := rest, ret := some (.flag true) } ∧
    (runThread P t 6 s).trace =
      s.trace ++ [.started t B, .completed t B (.raised e), .polled t true] ∧
    ((runThread P t 6 s).threads B).stack = .wait_internal .get c (some (.raised e)) :: restB ∧
    (runThread P B 1 (runThread P t 6 s)).threads B =
      { stack := restB, ret := some (.outcome (.raised e)) } ∧
    (∀ (P2 : Bodies κ α) (x : Outcome α),
      (∀ g : CEnsureThread, g.m_id = s.gate.m_id → P2 c g t = .done x) →
      (runThread P2 t 6 s).trace =
        s.trace ++ [.started t B, .completed t B x, .polled t true] ∧
      (runThread P2 B 1 (runThread P2 t 6 s)).threads B =
        { stack := restB, ret := some (.outcome x) }) ∧
    (∀ (P2 : Bodies κ α) (s2 : Sys κ α) (u : ThreadId) (c2 : κ) (rest2 : List (Frame κ α)),
      s2.gate.m_id = u → (s2.threads u).stack = .invoke c2 :: rest2 →
      P2 c2 s2.gate u = ENSURE_THREAD s2.gate u c2 (.done (.raised e)) →
      step P2 s2 u = some (s2.leave u rest2 (.outcome (.raised e)))) := by
  have htask : s.task B = some (c, none) := by simp [Sys.task, hB]
  have hne : B ≠ t := by
    rintro rfl
    rw [hst] at hB; simp at hB
  have key : ∀ (P2 : Bodies κ α) (x : Outcome α),
      (∀ g : CEnsureThread, g.m_id = s.gate.m_id → P2 c g t = .done x) →
      (runThread P2 t 6 s).threads t = { stack := rest, ret := some (.flag true) } ∧
      (runThread P2 t 6 s).trace =
        s.trace ++ [.started t B, .completed t B x, .polled t true] ∧
      ((runThread P2 t 6 s).threads B).stack = .wait_internal .get c (some x) :: restB ∧
      (runThread P2 B 1 (runThread P2 t 6 s)).threads B =
        { stack := restB, ret := some (.outcome x) } := by
    intro P2 x hx
    have h6 := poll_one_run P2 s t B q rest c x hst hm hq htask hx
    have hBst : ((runThread P2 t 6 s).threads B).stack =
        .wait_internal .get c (some x) :: restB := by
      rw [h6]
      simp [leave_threads, set_value_threads, hne, Thread.set_value, hB]
    refine ⟨by rw [h6]; simp [leave_threads], by rw [h6]; rfl, hBst, ?_⟩
    rw [runThread_some P2 B 0 _ _ (wait_internal_return P2 _ B restB c x hBst)]
    simp [runThread, leave_threads]
  obtain ⟨k1, k2, k3, k4⟩ := key P (.raised e) hbody
  refine ⟨k1, k2, k3, k4, fun P2 x hx => ⟨(key P2 x hx).2.1, (key P2 x hx).2.2.2⟩, ?_⟩
  intro P2 s2 u c2 rest2 hu hst2 hP2
  apply invoke_done_step P2 s2 u c2 rest2 _ hst2
  rw [hP2]
  simp [ENSURE_THREAD, CEnsureThread.check_thread, CEnsureThread.get_id, hu]

/-- Witness of C8: on the gate of `TEST(wait, direct)` with thread 1 blocked in
`wait`, a bound call that throws error 7 when the main thread polls it. -/
theorem C8_failure_propagates_witness :
    (runThread (fun (_ : STest) _ _ => Res.done (Outcome.raised 7)) 1 1
      (runThread (fun (_ : STest) _ _ => Res.done (Outcome.raised 7)) 0 6
        (fire directBodies directWaiting (.call 0 .poll_one)))).threads 1 =
      { stack := [], ret := some (.outcome (.raised 7)) } :=
  (C8_failure_propagates (fun (_ : STest) _ _ => Res.done (Outcome.raised 7))
    (fire directBodies directWaiting (.call 0 .poll_one)) 0 1 ⟨0⟩ 7 [] [] []
    (by decide) (by decide) (by decide) (by decide) (fun _ _ => rfl)).2.2.2.1

/-- Counterexample to C2, on the gate of `TEST(wait, direct)`: the main thread 0 is
the home thread, yet its call `et.wait(&threadChecker, &STest::IsSame)` grows the
queue from empty to one task and then cannot step: it is blocked in `get()`
without a result. -/
theorem C2_counterexample :
    (init 0 : Sys STest Bool).gate.check_thread 0 = true ∧
      (init 0 : Sys STest Bool).gate.m_dqExecutors = [] ∧
      (runThread directBodies 0 3
        (fire directBodies (init 0) (.call 0 (.wait ⟨0⟩)))).gate.m_dqExecutors = [0] ∧
      (runThread directBodies 0 3 (fire directBodies (init 0) (.call 0 (.wait ⟨0⟩)))).threads 0 =
        { stack := [.wait_internal .get ⟨0⟩ none], ret := none } ∧
      (step directBodies
        (runThread directBodies 0 3 (fire directBodies (init 0) (.call 0 (.wait ⟨0⟩)))) 0).isNone
        = true := by
  decide

/-- C2 as amended: `wait` makes no thread check.  Called by any idle thread `t`, the
home thread included, on a gate whose mutex is free, it appends exactly the one
executor of `t` at the back of the queue and blocks in `get()`: whatever the
fuel, `t` alone does not get past it.  The call that runs in place is the one made
through `ENSURE_THREAD` on the home thread: it returns the outcome of the body in
one step, with the gate (so the queue) unchanged. -/
theorem C2_wait_always_enqueues (P : Bodies κ α) (s : Sys κ α) (t : ThreadId) (c : κ)
    (n : Nat)
    (hidle : (s.threads t).stack = [])
    (hm : s.gate.m_mxQueue = none)
    (hn : 3 ≤ n) :
    (runThread P t n (fire P s (.call t (.wait c)))).gate.m_dqExecutors =
      s.gate.m_dqExecutors ++ [t] ∧
    (runThread P t n (fire P s (.call t (.wait c)))).threads t =
      { stack := [.wait_internal .get c none], ret := none } ∧
    step P (runThread P t n (fire P s (.call t (.wait c)))) t = none ∧
    (∀ r : Outcome α, s.gate.m_id = t →
      P c s.gate t = ENSURE_THREAD s.gate t c (.done r) →
      runThread P t n (fire P s (.call t (.invoke c))) = s.leave t [] (.outcome r) ∧
      (runThread P t n (fire P s (.call t (.invoke c)))).gate = s.gate) := by
  have h0 : fire P s (.call t (.wait c)) = s.goto t [.wait_internal .lock c none] :=
    fire_call_idle P s t (.wait c) hidle
  have h3 := wait_internal_run P (s.goto t [.wait_internal .lock c none]) t [] c
    (by simp [goto_threads]) (by simpa using hm)
  have hst : ((runThread P t 3 (s.goto t [.wait_internal .lock c none])).threads t) =
      { stack := [.wait_internal .get c none], ret := none } := by
    rw [h3]; simp [goto_threads]
  have hblock := wait_internal_blocked P _ t [] c (by rw [hst])
  obtain ⟨k, rfl⟩ := Nat.exists_eq_add_of_le hn
  have hrun : runThread P t (3 + k) (fire P s (.call t (.wait c))) =
      runThread P t 3 (s.goto t [.wait_internal .lock c none]) := by
    rw [h0, runThread_add, runThread_none P t k _ hblock]
  refine ⟨by rw [hrun, h3]; rfl, by rw [hrun]; exact hst, by rw [hrun]; exact hblock, ?_⟩
  intro r hhome hP
  have hi : fire P s (.call t (.invoke c)) = s.goto t [.invoke c] :=
    fire_call_idle P s t (.invoke c) hidle
  have hstep : step P (s.goto t [.invoke c]) t = some (s.leave t [] (.outcome r)) := by
    rw [invoke_done_step P _ t c [] r (by simp [goto_threads]) (by
      simp only [goto_gate]
      rw [hP]
      simp [ENSURE_THREAD, CEnsureThread.check_thread, CEnsureThread.get_id, hhome])]
    simp [Sys.goto, Sys.leave]
  have : runThread P t (3 + k) (fire P s (.call t (.invoke c))) = s.leave t [] (.outcome r) := by
    rw [hi, show 3 + k = (2 + k) + 1 by omega, runThread_some P t (2 + k) _ _ hstep]
    exact runThread_idle P t _ _ (by simp [leave_threads])
  exact ⟨this, by rw [this]; rfl⟩

/-- Witness of the amended C2: `wait` from the home thread 0 of `TEST(wait, direct)`
enqueues and blocks, and `Work(&et, 1, 2)` on the home thread of
`TEST(wait, macro)` returns in place. -/
theorem C2_wait_always_enqueues_witness :
    (runThread directBodies 0 5
      (fire directBodies (init 0) (.call 0 (.wait ⟨0⟩)))).gate.m_dqExecutors = [0] ∧
      (runThread macroBodies 0 5
        (fire macroBodies (init 0) (.call 0 (.invoke ⟨⟨0⟩, 1, 2⟩)))).gate.m_dqExecutors = [] := by
  have h1 := C2_wait_always_enqueues directBodies (init 0) 0 ⟨0⟩ 5 (by decide) (by decide)
    (by decide)
  have h2 := (C2_wait_always_enqueues macroBodies (init 0) 0 ⟨⟨0⟩, 1, 2⟩ 5 (by decide)
    (by decide) (by decide)).2.2.2 (.value (toInt (1 + 2))) rfl rfl
  refine ⟨?_, ?_⟩
  · rw [h1.1]; rfl
  · rw [h2.2]; rfl

theorem holding_of_finish_mem (st : List (Frame κ α)) (fn : ThreadId)
    (hsh : shaped st = true) (hmem : Frame.poll_one (.finish fn) ∈ st) :
    holding st = some fn := by
  cases st with
  | nil => simp at hmem
  | cons f l =>
    cases f with
    | invoke c =>
      have := shaped_invoke c l hsh
      subst this
      simp at hmem
    | poll =>
      have := shaped_poll l hsh
      subst this
      simp at hmem
    | poll_one pc =>
      rw [shaped_poll_one] at hsh
      rcases loopTail_cases l hsh with rfl | rfl
      · simp at hmem
        subst hmem
        simp [holding, Frame.holding]
      · simp at hmem
        subst hmem
        simp [holding, Frame.holding]
    | wait_internal pc c task =>
      rcases shaped_wait_cases pc c task l hsh with rfl | ⟨fn2, l2, rfl, hl⟩
      · simp at hmem
      · rcases loopTail_cases l2 hl with rfl | rfl
        · simp at hmem
          subst hmem
          simp [holding, Frame.holding]
        · simp at hmem
          subst hmem
          simp [holding, Frame.holding]

/-- C9: in every state the gate can reach from its construction, under every
schedule of calls and steps of any threads.  When thread `t` is about to run
`fnExecutor()` in `poll_one`, it does not hold the mutex, the executor `fn` is not
in the queue, its task has not been run before, no thread is about to take `fn`
out of the queue with `front()`, and no other thread holds `fn`: a `poll_one`
started now cannot execute it again.  While the execution lasts (the bound call
is inside its nested `wait`), `fn` is not in the queue and no other thread holds
it.  And a task whose shared state is ready, that is after its execution, is
not in the queue and is held by no thread. -/
theorem C9_pop_before_execute (P : Bodies κ α) (A : ThreadId) (sched : List (Action κ)) :
    (∀ t fn rest, ((run P (init A) sched).threads t).stack = .poll_one (.call fn) :: rest →
      (run P (init A) sched).gate.m_mxQueue ≠ some t ∧
      fn ∉ (run P (init A) sched).gate.m_dqExecutors ∧
      (∃ c restfn, ((run P (init A) sched).threads fn).stack =
        .wait_internal .get c none :: restfn) ∧
      (∀ u, fronted ((run P (init A) sched).threads u).stack ≠ some fn) ∧
      (∀ u, u ≠ t → holding ((run P (init A) sched).threads u).stack ≠ some fn)) ∧
    (∀ t fn, Frame.poll_one (.finish fn) ∈ ((run P (init A) sched).threads t).stack →
      fn ∉ (run P (init A) sched).gate.m_dqExecutors ∧
      (∀ u, fronted ((run P (init A) sched).threads u).stack ≠ some fn) ∧
      (∀ u, u ≠ t → holding ((run P (init A) sched).threads u).stack ≠ some fn)) ∧
    (∀ o c x, (run P (init A) sched).task o = some (c, some x) →
      o ∉ (run P (init A) sched).gate.m_dqExecutors ∧
      (∀ u, fronted ((run P (init A) sched).threads u).stack ≠ some o) ∧
      (∀ u, holding ((run P (init A) sched).threads u).stack ≠ some o)) := by
  have hinv : Inv (run P (init A) sched) := Inv.run P sched _ (Inv.init A)
  have hfront : ∀ fn, fn ∉ (run P (init A) sched).gate.m_dqExecutors →
      ∀ u, fronted ((run P (init A) sched).threads u).stack ≠ some fn := by
    intro fn hnot u hu
    have := hinv.front u fn hu
    exact hnot (List.mem_of_mem_head? this)
  refine ⟨?_, ?_, ?_⟩
  · intro t fn rest hst
    have hh : holding ((run P (init A) sched).threads t).stack = some fn := by
      rw [hst]; simp [holding, Frame.holding]
    obtain ⟨h1, h2⟩ := hinv.held t fn hh
    refine ⟨?_, h1, waiting_stack _ h2, hfront fn h1, ?_⟩
    · intro hmx
      have := (hinv.lock t).mp hmx
      rw [hst] at this
      simp [critical] at this
    · intro u hu hhu
      exact hu (hinv.held_unique u t fn hhu hh)
  · intro t fn hmem
    have hh := holding_of_finish_mem _ fn (hinv.shape t) hmem
    obtain ⟨h1, _⟩ := hinv.held t fn hh
    refine ⟨h1, hfront fn h1, ?_⟩
    intro u hu hhu
    exact hu (hinv.held_unique u t fn hhu hh)
  · intro o c x htask
    obtain ⟨pc, rest, hst⟩ := task_stack _ o c (some x) htask
    have hnq : o ∉ (run P (init A) sched).gate.m_dqExecutors := by
      intro hmem
      have := hinv.queued o hmem
      rw [hst] at this
      cases pc <;> simp [pending] at this
    refine ⟨hnq, hfront o hnq, ?_⟩
    intro u hhu
    have := (hinv.held u o hhu).2
    rw [hst] at this
    cases pc <;> simp [waiting] at this

/-- Witness of C9: in `TEST(wait, direct)`, thread 1 blocked in `wait`, the main
thread 0 has run `poll_one` up to the call of `fnExecutor`. -/
theorem C9_pop_before_execute_witness :
    ((run directBodies (init 0)
      [.call 1 (.wait ⟨0⟩), .step 1, .step 1, .step 1, .call 0 .poll_one, .step 0, .step 0,
        .step 0, .step 0, .step 0]).threads 0).stack = [.poll_one (.call 1)] ∧
      (run directBodies (init 0)
        [.call 1 (.wait ⟨0⟩), .step 1, .step 1, .step 1, .call 0 .poll_one, .step 0, .step 0,
          .step 0, .step 0, .step 0]).gate.m_mxQueue ≠ some 0 ∧
      1 ∉ (run directBodies (init 0)
        [.call 1 (.wait ⟨0⟩), .step 1, .step 1, .step 1, .call 0 .poll_one, .step 0, .step 0,
          .step 0, .step 0, .step 0]).gate.m_dqExecutors := by
  have h := (C9_pop_before_execute directBodies 0
    [.call 1 (.wait ⟨0⟩), .step 1, .step 1, .step 1, .call 0 .poll_one, .step 0, .step 0,
      .step 0, .step 0, .step 0]).1 0 1 [] (by decide)
  exact ⟨by decide, h.1, h.2.1⟩

/-- The writes to the queue are made under the mutex: in every reachable state, a
thread about to run `emplace_back`, `front()` or `pop_front()` holds it, and any
thread that holds it is at one of these statements or at the unlock after them. -/
theorem mutations_under_lock (P : Bodies κ α) (A : ThreadId) (sched : List (Action κ))
    (t : ThreadId) :
    (run P (init A) sched).gate.m_mxQueue = some t ↔
      critical ((run P (init A) sched).threads t).stack = true :=
  (Inv.run P sched _ (Inv.init A)).lock t

/-- C10, the code at the failing inputs.  In `racingTest` thread 1 holds the mutex
inside `wait_internal`, about to run `emplace_back`, and the next statement of
thread 0, the test `m_dqExecutors.empty()` of `poll_one`, reads the queue and is
enabled although thread 0 does not hold the mutex; so it is not true that every
enabled access to the queue is made by the holder of the mutex.  In
`racingPollers` the test made without the mutex has let thread 2 through on a
queue that thread 0 emptied afterwards: thread 2 holds the mutex and its next
statement is `front()` on an empty deque, for which no step is defined. -/
theorem C10_empty_test_without_lock :
    (racingTest.gate.m_mxQueue = some 1 ∧
      (racingTest.threads 1).stack = [.wait_internal .emplace_back ⟨0⟩ none] ∧
      (racingTest.threads 0).stack = [.poll_one .test] ∧
      touchesQueue (racingTest.threads 0).stack = true ∧
      (step directBodies racingTest 0).isSome = true) ∧
    (¬ ∀ (sched : List (Action STest)) (t : ThreadId),
      touchesQueue ((run directBodies (init 0) sched).threads t).stack = true →
      (step directBodies (run directBodies (init 0) sched) t).isSome = true →
      (run directBodies (init 0) sched).gate.m_mxQueue = some t) ∧
    (racingPollers.gate.m_mxQueue = some 2 ∧
      (racingPollers.threads 2).stack = [.poll_one .front] ∧
      racingPollers.gate.m_dqExecutors = [] ∧
      (step directBodies racingPollers 2).isNone = true) := by
  refine ⟨by decide, ?_, by decide⟩
  intro h
  have := h [.call 1 (.wait ⟨0⟩), .step 1, .call 0 .poll_one] 0 (by decide) (by decide)
  revert this
  decide
end EnsureThread
